import Mathlib

/-!
# Verification of the Linoleum tile-map editor core

Shallow embedding of the grid buffer, serialization format, editor state
machine (undo/redo), and grid-editing algorithms of the Linoleum editor
(`src/tilegrid.rs`, `src/state.rs`, `src/paint.rs`), together with proofs
of the testable properties stated in the specification.

Modelling conventions:
* Rust `u8`/`u32`/`usize` values are Lean `Nat`s; where a wrapping cast or
  wrapping subtraction can occur in the source, it is made explicit
  (`asU32`, `wsub32`).
* Rust `String`s (filenames, file contents) are lists of byte values
  (`List Nat`).
* Sprites and all rendering data are irrelevant to the verified properties
  (`Tile` equality in the source compares `(filename, index)` only), so a
  tileset is modelled as its list of `(filename, number-of-images)` pairs,
  and the on-disk `.ahi` asset directory as an association list from a
  filename to the number of images in that file.
* Fallible Rust code (`io::Result`) returns `Except String` / `Option`.
* Out-of-bounds `SubGrid` indexing panics in the source; all verified
  call paths are shown to stay in bounds, and the embedded `get`/`set`
  use the usual default/no-op behaviour outside the valid domain.
-/

namespace Linoleum

/-- A byte value (`u8`). -/
abbrev Byte := Nat

/-- A filename, as its list of bytes (Rust `String`). -/
abbrev Filename := List Byte

/-- `Tile` from `tilegrid.rs`: identity is `(filename, index)`; the sprite
field takes no part in equality/ordering and is omitted. -/
structure Tile where
  filename : Filename
  index : Nat
deriving DecidableEq, Repr

/-- `Tileset` from `tilegrid.rs`, reduced to the data relevant to tile
identity: the ordered list of `(filename, number of images in the file)`. -/
structure Tileset where
  tiles : List (Filename × Nat)
deriving DecidableEq, Repr

namespace Tileset

/-- The ordered filename list (`Tileset::filenames`). -/
def filenames (ts : Tileset) : List Filename :=
  ts.tiles.map Prod.fst

/-- `Tileset::get`: look up a tile by `(file_index, tile_index)`; `none`
when either index is out of range. -/
def get (ts : Tileset) (fileIndex tileIndex : Nat) : Option Tile :=
  match ts.tiles.get? fileIndex with
  | none => none
  | some (f, n) => if tileIndex < n then some ⟨f, tileIndex⟩ else none

end Tileset

/-- The on-disk tile asset directory: an association from a filename to the
number of images in that `.ahi` file; `none` means the file is missing. -/
abbrev Disk := List (Filename × Nat)

/-- Look up a filename on the disk. -/
def diskLookup (disk : Disk) (f : Filename) : Option Nat :=
  match disk with
  | [] => none
  | (g, n) :: rest => if g = f then some n else diskLookup rest f

/-- `Tileset::load`: load each named file from the asset directory in
order; fails if any file is missing. -/
def Tileset.load (disk : Disk) (names : List Filename) : Option Tileset :=
  match names with
  | [] => some ⟨[]⟩
  | f :: rest =>
    match diskLookup disk f, Tileset.load disk rest with
    | some n, some ts => some ⟨(f, n) :: ts.tiles⟩
    | _, _ => none

/-- `SubGrid` from `tilegrid.rs`: a `width × height` row-major buffer of
optional tiles. -/
structure SubGrid where
  width : Nat
  height : Nat
  grid : List (Option Tile)
deriving DecidableEq, Repr

namespace SubGrid

/-- `SubGrid::new`: all cells empty. -/
def new (width height : Nat) : SubGrid :=
  ⟨width, height, List.replicate (width * height) none⟩

/-- Structural invariant: the buffer length matches the dimensions. -/
def WF (sg : SubGrid) : Prop :=
  sg.grid.length = sg.width * sg.height

instance : DecidablePred WF := fun sg => by unfold WF; infer_instance

/-- Read the cell at `(col, row)` (the source `Index` impl; the source
panics out of range, verified call paths stay in range). -/
def get (sg : SubGrid) (col row : Nat) : Option Tile :=
  sg.grid.getD (row * sg.width + col) none

/-- Write the cell at `(col, row)` (the source `IndexMut` impl). -/
def set (sg : SubGrid) (col row : Nat) (v : Option Tile) : SubGrid :=
  { sg with grid := sg.grid.set (row * sg.width + col) v }

end SubGrid

/-- Default grid dimensions (`GRID_DEFAULT_NUM_COLS/ROWS`). -/
def GRID_DEFAULT_NUM_COLS : Nat := 36
def GRID_DEFAULT_NUM_ROWS : Nat := 24

/-- `TileGrid` from `tilegrid.rs`: background RGB color, tileset, and the
full-canvas subgrid. -/
structure TileGrid where
  background_color : Nat × Nat × Nat
  tileset : Tileset
  subgrid : SubGrid
deriving DecidableEq, Repr

namespace TileGrid

def width (g : TileGrid) : Nat := g.subgrid.width
def height (g : TileGrid) : Nat := g.subgrid.height

def get (g : TileGrid) (col row : Nat) : Option Tile := g.subgrid.get col row

def set (g : TileGrid) (col row : Nat) (v : Option Tile) : TileGrid :=
  { g with subgrid := g.subgrid.set col row v }

/-- Well-formedness: buffer length matches dimensions, and the background
color components are `u8` values. -/
def WF (g : TileGrid) : Prop :=
  g.subgrid.WF ∧ g.background_color.1 < 256 ∧ g.background_color.2.1 < 256 ∧
    g.background_color.2.2 < 256

instance : DecidablePred WF := fun g => by unfold WF; infer_instance

/-- `TileGrid::new`: default background (15,15,15) and a default-size empty
canvas. -/
def new (ts : Tileset) : TileGrid :=
  ⟨(15, 15, 15), ts, SubGrid.new GRID_DEFAULT_NUM_COLS GRID_DEFAULT_NUM_ROWS⟩

/-- The row-major coordinate list `[(c, r) | r ∈ rows, c ∈ cols]` used to
model the source's nested `for row { for col }` loops. -/
def coordList (cols rows : List Nat) : List (Nat × Nat) :=
  rows.flatMap fun r => cols.map fun c => (c, r)

/-- `TileGrid::resize`: copy the overlapping top-left region into a fresh
empty subgrid of the new size. -/
def resize (g : TileGrid) (newWidth newHeight : Nat) : TileGrid :=
  let coords := coordList (List.range (min g.width newWidth))
      (List.range (min g.height newHeight))
  let newSub := coords.foldl
    (fun (sg : SubGrid) c => sg.set c.1 c.2 (g.get c.1 c.2))
    (SubGrid.new newWidth newHeight)
  { g with subgrid := newSub }

end TileGrid

/-! ## Serialization (`TileGrid::save`) -/

/-- The base64 alphabet of `index_to_base64`, as byte values
(`A-Z a-z 0-9 + /`). -/
def b64Alphabet : List Byte :=
  [65, 66, 67, 68, 69, 70, 71, 72, 73, 74, 75, 76, 77, 78,
   79, 80, 81, 82, 83, 84, 85, 86, 87, 88, 89, 90, 97, 98,
   99, 100, 101, 102, 103, 104, 105, 106, 107, 108, 109, 110, 111, 112,
   113, 114, 115, 116, 117, 118, 119, 120, 121, 122, 48, 49, 50, 51,
   52, 53, 54, 55, 56, 57, 43, 47]

/-- `index_to_base64` (the source panics for `index ≥ 64`; verified call
paths only use indices `< 64`, where the default is never taken). -/
def index_to_base64 (index : Nat) : Byte :=
  b64Alphabet.getD index 65

/-- `base64_to_index`. -/
def base64_to_index (byte : Byte) : Except String Nat :=
  if 65 ≤ byte ∧ byte ≤ 90 then .ok (byte - 65)
  else if 97 ≤ byte ∧ byte ≤ 122 then .ok (byte - 97 + 26)
  else if 48 ≤ byte ∧ byte ≤ 57 then .ok (byte - 48 + 52)
  else if byte = 43 then .ok 62
  else if byte = 47 then .ok 63
  else .error "invalid index byte"

/-- Decimal byte rendering of a natural number (Rust's `{}` formatting of
an unsigned integer), with explicit fuel for structural recursion; the
fuel `n + 1` always suffices. -/
def decAux : Nat → Nat → List Byte
  | 0, _ => []
  | fuel + 1, n =>
    if n < 10 then [48 + n] else decAux fuel (n / 10) ++ [48 + n % 10]

/-- Decimal byte rendering of `n`. -/
def decBytes (n : Nat) : List Byte := decAux (n + 1) n

/-- The `BTreeMap<String, usize>` built in `TileGrid::save` by inserting
`(filename, index)` pairs in order: a later insert of the same filename
overwrites an earlier one, so lookup finds the *last* index. -/
def filenameMapGet : Nat → List Filename → Filename → Option Nat
  | _, [], _ => none
  | i, n :: rest, f =>
    match filenameMapGet (i + 1) rest f with
    | some j => some j
    | none => if n = f then some i else none

/-- One row line of the save format: pending empty cells accumulate in
`spaces` and are flushed as two literal spaces each just before the next
occupied cell; trailing empties are never flushed. -/
def encodeRowAux (names : List Filename) : List (Option Tile) → Nat → List Byte
  | [], _ => []
  | none :: rest, spaces => encodeRowAux names rest (spaces + 1)
  | some t :: rest, spaces =>
    List.replicate (2 * spaces) 32 ++
      [index_to_base64 ((filenameMapGet 0 names t.filename).getD 0),
       index_to_base64 t.index] ++
      encodeRowAux names rest 0

/-- The cells of row `row`, left to right. -/
def TileGrid.rowCells (g : TileGrid) (row : Nat) : List (Option Tile) :=
  (List.range g.width).map fun col => g.get col row

/-- Drop trailing all-empty row lines (the `while … lines.pop()` loop). -/
def trimTrailing (lines : List (List Byte)) : List (List Byte) :=
  (lines.reverse.dropWhile fun l => l.isEmpty).reverse

/-- `TileGrid::save`: header line, one `>`-prefixed line per tileset
filename, then (if any non-empty row line remains after trimming) a blank
line followed by the row lines. -/
def TileGrid.save (g : TileGrid) : List Byte :=
  let (red, green, blue) := g.background_color
  let header :=
    [64, 66, 71, 32] ++ decBytes red ++ [32] ++ decBytes green ++ [32] ++
      decBytes blue ++
      (if g.width = GRID_DEFAULT_NUM_COLS ∧ g.height = GRID_DEFAULT_NUM_ROWS
        then [10]
        else [32] ++ decBytes g.width ++ [120] ++ decBytes g.height ++ [10])
  let nameLines :=
    g.tileset.filenames.flatMap fun f => 62 :: (f ++ [10])
  let lines := trimTrailing
    ((List.range g.height).map fun row =>
      encodeRowAux g.tileset.filenames (g.rowCells row) 0)
  header ++ nameLines ++
    (if lines.isEmpty then [] else 10 :: lines.flatMap fun l => l ++ [10])

/-! ## Parsing (`TileGrid::load`) -/

/-- Is the byte an ASCII digit? -/
def isDigitByte (b : Byte) : Bool := 48 ≤ b ∧ b ≤ 57

/-- The loop of `read_int`: accumulate decimal digits; values over `0xFF`
are an error; at a non-digit return it as the lookahead byte; at EOF the
lookahead is `0`. -/
def readIntAux (value : Nat) : List Byte → Except String (Nat × Byte × List Byte)
  | [] => .ok (value, 0, [])
  | b :: rest =>
    if isDigitByte b then
      let v := value * 10 + (b - 48)
      if v > 0xFF then .error "value is too large" else readIntAux v rest
    else .ok (value, b, rest)

/-- `read_int`. -/
def readInt (bs : List Byte) : Except String (Nat × Byte × List Byte) :=
  readIntAux 0 bs

/-- `read_int_with`: `read_int` whose lookahead must be `terminator`. -/
def readIntWith (terminator : Byte) (bs : List Byte) :
    Except String (Nat × List Byte) := do
  let (value, next, rest) ← readInt bs
  if next = terminator then .ok (value, rest)
  else .error "unexpected char in header"

/-- `read_exactly`: consume exactly the bytes of `pat`. -/
def readExactly (pat bs : List Byte) : Except String (List Byte) :=
  if pat.length ≤ bs.length ∧ bs.take pat.length = pat
  then .ok (bs.drop pat.length)
  else .error "unexpected bytes"

/-- `read_string`: consume bytes up to (and including) the first
`terminator`, or up to EOF. -/
def readString (terminator : Byte) : List Byte → List Byte × List Byte
  | [] => ([], [])
  | b :: rest =>
    if b = terminator then ([], rest)
    else
      let (s, tl) := readString terminator rest
      (b :: s, tl)

theorem readString_suffix_length (terminator : Byte) (bs : List Byte) :
    (readString terminator bs).2.length ≤ bs.length := by
  induction bs with
  | nil => exact Nat.le_refl _
  | cons b rest ih =>
    unfold readString
    by_cases hb : b = terminator
    · rw [if_pos hb]
      exact Nat.le_succ _
    · rw [if_neg hb]
      cases hrs : readString terminator rest with
      | mk s tl =>
        simp only [hrs] at ih ⊢
        exact Nat.le_trans ih (Nat.le_succ _)

/-- The filename loop of `TileGrid::load`: `>`-lines accumulate filenames;
a blank line ends the list (third component `false`); EOF ends the whole
load with an empty grid (third component `true`).  Each iteration consumes
at least one byte, so the explicit fuel (one unit per iteration) never
runs out when it starts at the byte count (`readFilenamesAux_fuel`). -/
def readFilenamesAux : Nat → List Byte →
    Except String (List Filename × List Byte × Bool)
  | _, [] => .ok ([], [], true)
  | 0, _ :: _ => .error "out of fuel"
  | fuel + 1, b :: rest =>
    if b = 62 then
      match readFilenamesAux fuel (readString 10 rest).2 with
      | .ok (names, tl, eof) => .ok ((readString 10 rest).1 :: names, tl, eof)
      | .error e => .error e
    else if b = 10 then .ok ([], rest, false)
    else .error "unexpected byte"

/-- The filename loop, with always-sufficient fuel. -/
def readFilenames (bs : List Byte) :
    Except String (List Filename × List Byte × Bool) :=
  readFilenamesAux bs.length bs

/-- The inner (per-row) loop of `TileGrid::load`: two bytes per cell, two
spaces for an empty cell, otherwise two base64 digits resolved through the
tileset; `\n` ends the row early (remaining cells stay empty); EOF ends
the entire load (third component `true`). -/
def loadRow (ts : Tileset) (width row : Nat) :
    Nat → SubGrid → List Byte →
      Except String (SubGrid × List Byte × Bool)
  | _, sg, [] => .ok (sg, [], true)
  | col, sg, b1 :: rest =>
    if b1 = 10 then .ok (sg, rest, false)
    else if width ≤ col then .error "too many columns"
    else
      match rest with
      | [] => .error "unexpected EOF"
      | b2 :: rest' =>
        if b1 = 32 ∧ b2 = 32 then loadRow ts width row (col + 1) sg rest'
        else
          match base64_to_index b1, base64_to_index b2 with
          | .ok fileIndex, .ok tileIndex =>
            match ts.get fileIndex tileIndex with
            | some tile =>
              loadRow ts width row (col + 1) (sg.set col row (some tile)) rest'
            | none => .error "invalid tile"
          | .error e, _ => .error e
          | _, .error e => .error e

/-- The outer row loop of `TileGrid::load`, one iteration per declared row
(EOF stops early, trailing bytes after the last declared row are
ignored). -/
def loadRows (ts : Tileset) (width : Nat) :
    Nat → Nat → SubGrid → List Byte → Except String SubGrid
  | 0, _, sg, _ => .ok sg
  | rowsLeft + 1, row, sg, bs =>
    match loadRow ts width row 0 sg bs with
    | .ok (sg', rest, eof) =>
      if eof then .ok sg' else loadRows ts width rowsLeft (row + 1) sg' rest
    | .error e => .error e

/-- The part of `TileGrid::load` after the header line: read the filename
list, load the tileset from the asset directory, then parse the row
section. -/
def loadTail (disk : Disk) (red green blue width height : Nat)
    (bs : List Byte) : Except String TileGrid := do
  let background_color := (red % 256, green % 256, blue % 256)
  let sg := SubGrid.new width height
  let (filenames, bs, eof) ← readFilenames bs
  match Tileset.load disk filenames with
  | none => .error "could not load tileset"
  | some ts =>
    if eof then .ok ⟨background_color, ts, sg⟩
    else do
      let sg ← loadRows ts width height 0 sg bs
      .ok ⟨background_color, ts, sg⟩

/-- `TileGrid::load`: parse the header, the filename list and the row
section; the tileset is loaded from the asset directory `disk` using the
declared filename list. -/
def TileGrid.load (disk : Disk) (bs : List Byte) : Except String TileGrid := do
  let bs ← readExactly [64, 66, 71, 32] bs
  let (red, bs) ← readIntWith 32 bs
  let (green, bs) ← readIntWith 32 bs
  let (blue, next, bs) ← readInt bs
  let (width, height, bs) ←
    if next = 10 then
      .ok (GRID_DEFAULT_NUM_COLS, GRID_DEFAULT_NUM_ROWS, bs)
    else if next = 32 then do
      let (width, bs) ← readIntWith 120 bs
      let (height, bs) ← readIntWith 10 bs
      .ok (width, height, bs)
    else .error "unexpected char in header"
  loadTail disk red green blue width height bs

/-- `TileGrid::load_from_path`: open the file in the (modelled)
filesystem, then parse it. -/
def TileGrid.load_from_path (fs : List Byte → Option (List Byte))
    (disk : Disk) (path : List Byte) : Except String TileGrid :=
  match fs path with
  | none => .error "no such file"
  | some bs => TileGrid.load disk bs

/-! ## Rectangles, cut and paste -/

/-- An `sdl2::rect::Rect`: signed top-left corner, unsigned size (the sdl2
constructor clamps all four values into `±i32::MAX/2`, so the `i32`
arithmetic below never overflows). -/
structure Rect where
  x : Int
  y : Int
  w : Nat
  h : Nat
deriving DecidableEq, Repr

namespace Rect

def left (r : Rect) : Int := r.x
def top (r : Rect) : Int := r.y
def right (r : Rect) : Int := r.x + r.w
def bottom (r : Rect) : Int := r.y + r.h
def top_left (r : Rect) : Int × Int := (r.x, r.y)

end Rect

/-- An `i32 as u32` cast (two's-complement wrap). -/
def asU32 (i : Int) : Nat := (i % 4294967296).toNat

/-- Wrapping `u32` subtraction (Rust release-profile semantics of `a - b`
on `u32`). -/
def wsub32 (a b : Nat) : Nat := (a + 4294967296 - b) % 4294967296

/-- One iteration of the cut loop: read the cell (collecting the copies
in reverse order) and clear it. -/
def cutStep (acc : List (Option Tile) × TileGrid) (c : Nat × Nat) :
    List (Option Tile) × TileGrid :=
  (acc.2.get c.1 c.2 :: acc.1, acc.2.set c.1 c.2 none)

/-- `TileGrid::cut_subgrid`: clip the rect to the grid, collect the
clipped cells row-major into a fresh `SubGrid` (whose recorded size is the
`u32` difference of the clipped bounds, which in release mode wraps when
the clipped range is empty) and clear them in the grid.  The source reads
and clears each cell in one pass, modelled by a single fold. -/
def TileGrid.cut_subgrid (g : TileGrid) (rect : Rect) : SubGrid × TileGrid :=
  let startCol := asU32 (max 0 rect.left)
  let endCol := asU32 (min (g.width : Int) rect.right)
  let startRow := asU32 (max 0 rect.top)
  let endRow := asU32 (min (g.height : Int) rect.bottom)
  let coords := TileGrid.coordList (List.range' startCol (endCol - startCol))
    (List.range' startRow (endRow - startRow))
  let out := coords.foldl cutStep ([], g)
  (⟨wsub32 endCol startCol, wsub32 endRow startRow, out.1.reverse⟩, out.2)

/-- One iteration of the paste loop: overlay one source cell if it is
non-empty. -/
def pasteStep (sg : SubGrid) (srcStartCol srcStartRow destStartCol
    destStartRow : Nat) (gg : TileGrid) (c : Nat × Nat) : TileGrid :=
  match sg.get (srcStartCol + c.1) (srcStartRow + c.2) with
  | some t => gg.set (destStartCol + c.1) (destStartRow + c.2) (some t)
  | none => gg

/-- `TileGrid::paste_subgrid`: overlay the non-empty cells of `subgrid`
anchored at `topleft` onto the grid, clipping to both.  The `u32`
subtractions in `num_rows`/`num_cols` cannot wrap because each minuend is
bounded below by the subtrahend via the preceding `min`. -/
def TileGrid.paste_subgrid (g : TileGrid) (sg : SubGrid) (topleft : Int × Int) :
    TileGrid :=
  let srcStartRow := min (asU32 (max 0 (-topleft.2))) sg.height
  let srcStartCol := min (asU32 (max 0 (-topleft.1))) sg.width
  let destStartRow := min (asU32 (max 0 topleft.2)) g.height
  let destStartCol := min (asU32 (max 0 topleft.1)) g.width
  let numRows := min (sg.height - srcStartRow) (g.height - destStartRow)
  let numCols := min (sg.width - srcStartCol) (g.width - destStartCol)
  (TileGrid.coordList (List.range numCols) (List.range numRows)).foldl
    (pasteStep sg srcStartCol srcStartRow destStartCol destStartRow) g

/-! ## Editor state (`state.rs`) -/

/-- `Tool` (the variants matched in `paint.rs`). -/
inductive Tool
  | Eyedropper
  | PaintBucket
  | PaletteReplace
  | PaletteSwap
  | Pencil
  | Select
deriving DecidableEq, Repr

/-- `Mode`. -/
inductive Mode
  | Edit
  | LoadFile (text : List Byte)
  | SaveAs (text : List Byte)
  | ChangeColor (text : List Byte)
deriving DecidableEq, Repr

/-- `MAX_UNDOS`. -/
def MAX_UNDOS : Nat := 100

/-- `Snapshot`: the undo/redo unit. -/
structure Snapshot where
  tilegrid : TileGrid
  selection : Option (SubGrid × (Int × Int))
  unsaved : Bool
deriving DecidableEq, Repr

/-- `EditorState` (the clipboard and tool bookkeeping are carried along
but play no role in the verified properties). -/
structure EditorState where
  mode : Mode
  filepath : List Byte
  current : Snapshot
  undo_stack : List Snapshot
  redo_stack : List Snapshot
  clipboard : Option (SubGrid × (Int × Int))
  tool : Tool
  prev_tool : Tool
  brush : Option Tile
  persistent_mutation_active : Bool
  should_mode_perform : Bool
deriving DecidableEq, Repr

namespace EditorState

/-- `EditorState::new`. -/
def new (filepath : List Byte) (ts : Tileset) : EditorState where
  mode := .Edit
  filepath := filepath
  current := ⟨TileGrid.new ts, none, true⟩
  undo_stack := []
  redo_stack := []
  clipboard := none
  tool := .Pencil
  prev_tool := .Pencil
  brush := none
  persistent_mutation_active := false
  should_mode_perform := false

/-- The stack push inside `push_change`: append the snapshot, and drop the
oldest entry when the depth exceeds `MAX_UNDOS`. -/
def pushSnap (stack : List Snapshot) (s : Snapshot) : List Snapshot :=
  let stack' := stack ++ [s]
  if MAX_UNDOS < stack'.length then stack'.tail else stack'

/-- `EditorState::push_change`. -/
def push_change (st : EditorState) : EditorState :=
  { st with
    persistent_mutation_active := false
    redo_stack := []
    undo_stack := pushSnap st.undo_stack st.current }

/-- `EditorState::mutation` up to the point where the caller receives the
`Mutation` handle: unconditional `push_change` plus the unsaved mark.  The
caller's edits through the handle are applied to `current` afterwards. -/
def mutationBegin (st : EditorState) : EditorState :=
  let st := st.push_change
  { st with current := { st.current with unsaved := true } }

/-- `EditorState::persistent_mutation`: `push_change` only on the first
call of a coalesced gesture. -/
def persistentBegin (st : EditorState) : EditorState :=
  if st.persistent_mutation_active then
    { st with current := { st.current with unsaved := true } }
  else
    let st := st.push_change
    { st with
      persistent_mutation_active := true
      current := { st.current with unsaved := true } }

/-- `EditorState::reset_persistent_mutation`. -/
def reset_persistent_mutation (st : EditorState) : EditorState :=
  { st with persistent_mutation_active := false }

/-- `EditorState::undo`: pop the undo stack, swap with `current`, push the
old `current` onto the redo stack; force the `Select` tool when the
restored snapshot has a live selection. -/
def undo (st : EditorState) : EditorState × Bool :=
  match st.undo_stack.getLast? with
  | none => (st, false)
  | some snapshot =>
    ({ st with
        current := snapshot
        undo_stack := st.undo_stack.dropLast
        redo_stack := st.redo_stack ++ [st.current]
        tool := if snapshot.selection.isSome then Tool.Select else st.tool },
      true)

/-- `EditorState::redo` (mirror of `undo`). -/
def redo (st : EditorState) : EditorState × Bool :=
  match st.redo_stack.getLast? with
  | none => (st, false)
  | some snapshot =>
    ({ st with
        current := snapshot
        redo_stack := st.redo_stack.dropLast
        undo_stack := st.undo_stack ++ [st.current]
        tool := if snapshot.selection.isSome then Tool.Select else st.tool },
      true)

/-- Iterated `undo`. -/
def undoN : Nat → EditorState → EditorState
  | 0, st => st
  | n + 1, st => undoN n (st.undo).1

/-- Iterated `redo`. -/
def redoN : Nat → EditorState → EditorState
  | 0, st => st
  | n + 1, st => redoN n (st.redo).1

/-- Replace the grid of the current snapshot (a caller's edit through a
`Mutation` handle). -/
def withGrid (st : EditorState) (g : TileGrid) : EditorState :=
  { st with current := { st.current with tilegrid := g } }

end EditorState

/-- A caller-side edit performed through a `Mutation` handle: an arbitrary
transformation of the parts of the snapshot reachable through the handle
(the grid and the selection). -/
abbrev GridOp :=
  TileGrid × Option (SubGrid × (Int × Int)) →
    TileGrid × Option (SubGrid × (Int × Int))

/-- One complete mutating operation: acquire `EditorState::mutation` (which
pushes the pre-state onto the undo stack) and apply the edit `f`. -/
def applyGridOp (f : GridOp) (st : EditorState) : EditorState :=
  let st := st.mutationBegin
  let p := f (st.current.tilegrid, st.current.selection)
  { st with current := { st.current with tilegrid := p.1, selection := p.2 } }

/-- A sequence of mutating operations, applied left to right. -/
def applyGridOps : List GridOp → EditorState → EditorState
  | [], st => st
  | f :: fs, st => applyGridOps fs (applyGridOp f st)

/-- The snapshot produced by one mutating operation: the edit applied to
the (grid, selection) of the current snapshot, with the unsaved mark. -/
def forwardSnap (f : GridOp) (c : Snapshot) : Snapshot :=
  ⟨(f (c.tilegrid, c.selection)).1, (f (c.tilegrid, c.selection)).2, true⟩

/-- The snapshot after a whole sequence of mutating operations. -/
def forwardAll : List GridOp → Snapshot → Snapshot
  | [], c => c
  | f :: fs, c => forwardAll fs (forwardSnap f c)

/-- The snapshots pushed onto the undo stack by a sequence of mutating
operations: the pre-state of each operation, oldest first. -/
def partialsOf : List GridOp → Snapshot → List Snapshot
  | [], _ => []
  | f :: fs, c => c :: partialsOf fs (forwardSnap f c)

/-- 101 mutating operations: the first changes the background color, the
rest leave the snapshot as is (e.g. repainting a cell with its own
tile). -/
def exOps101 : List GridOp :=
  (fun p => ({ p.1 with background_color := (0, 0, 0) }, p.2)) ::
    List.replicate 100 id

/-! ## Painting algorithms (`paint.rs`) -/

/-- `InnerCanvas::try_paint`, at the cell level: paint the brush at an
in-bounds cell through a `persistent_mutation`.  (The pixel-to-cell
conversion `mouse_to_row_col` is elided; a click outside the grid returns
`false` without touching the state and never reaches this point.) -/
def tryPaintAt (st : EditorState) (pos : Nat × Nat) : EditorState × Bool :=
  let brush := st.brush
  let st := st.persistentBegin
  (st.withGrid (st.current.tilegrid.set pos.1 pos.2 brush), true)

/-- The `Pencil` arm of `handle_event` for `MouseDown`: reset the
persistent-mutation coalescing, then paint. -/
def pencilMouseDown (st : EditorState) (pos : Nat × Nat) :
    EditorState × Bool :=
  tryPaintAt st.reset_persistent_mutation pos

/-- The `Pencil` arm of `handle_event` for `MouseDrag`: paint. -/
def pencilMouseDrag (st : EditorState) (pos : Nat × Nat) :
    EditorState × Bool :=
  tryPaintAt st pos

/-- An uninterrupted drag-paint gesture: one mouse-down paint followed by
the drag paints. -/
def pencilGesture (st : EditorState) (first : Nat × Nat)
    (drags : List (Nat × Nat)) : EditorState :=
  drags.foldl (fun s p => (pencilMouseDrag s p).1) (pencilMouseDown st first).1

/-- The up-to-four in-bounds 4-neighbours of a cell, in the order the
source pushes them (`left, right, up, down`). -/
def neighbors (w h : Nat) (c : Nat × Nat) : List (Nat × Nat) :=
  (if 0 < c.1 then [(c.1 - 1, c.2)] else []) ++
  (if c.1 < w - 1 then [(c.1 + 1, c.2)] else []) ++
  (if 0 < c.2 then [(c.1, c.2 - 1)] else []) ++
  (if c.2 < h - 1 then [(c.1, c.2 + 1)] else [])

/-- The `for coords in next` body of the flood-fill loop: paint and push
each neighbour that still holds the original tile. -/
def processNeighbors (fromTile toTile : Option Tile) :
    List (Nat × Nat) → TileGrid → List (Nat × Nat) →
      TileGrid × List (Nat × Nat)
  | [], g, stack => (g, stack)
  | c :: cs, g, stack =>
    if g.get c.1 c.2 = fromTile then
      processNeighbors fromTile toTile cs (g.set c.1 c.2 toTile) (c :: stack)
    else processNeighbors fromTile toTile cs g stack

/-- The `while let Some((col, row)) = stack.pop()` loop of
`try_flood_fill`, with explicit fuel.  Each iteration pops one entry and
every push strictly decreases the number of cells equal to `fromTile`, so
fuel `count + stack length` suffices (`floodLoop_terminates`). -/
def floodLoop (fromTile toTile : Option Tile) :
    Nat → TileGrid → List (Nat × Nat) → Option TileGrid
  | _, g, [] => some g
  | 0, _, _ :: _ => none
  | fuel + 1, g, c :: stack =>
    let out := processNeighbors fromTile toTile
      (neighbors g.width g.height c) g stack
    floodLoop fromTile toTile fuel out.1 out.2

/-- The number of cells currently equal to `a`. -/
def countEq (a : Option Tile) (g : TileGrid) : Nat :=
  g.subgrid.grid.countP fun v => decide (v = a)

/-- Cells reachable from `start` through 4-connected paths whose every
step lands on a cell holding tile `a` in the grid `g` (the connected
component the flood fill is specified to repaint). -/
inductive Reach (g : TileGrid) (a : Option Tile) (start : Nat × Nat) :
    Nat × Nat → Prop
  | base : Reach g a start start
  | step {c d : Nat × Nat} : Reach g a start c →
      d ∈ neighbors g.width g.height c → g.get d.1 d.2 = a →
      Reach g a start d

/-- Cells reachable from `start` through 4-connected paths staying inside
the region `R` (the claim's notion of a connected region). -/
inductive ReachWithin (R : Finset (Nat × Nat)) (w h : Nat)
    (start : Nat × Nat) : Nat × Nat → Prop
  | base : ReachWithin R w h start start
  | step {c d : Nat × Nat} : ReachWithin R w h start c →
      d ∈ neighbors w h c → d ∈ R → ReachWithin R w h start d

/-- The invariant of the flood-fill loop, relative to the pre-fill grid
`A`, the original tile `a`, the brush `b` and the seed `start`: the grid
dimensions are unchanged; stack cells are in bounds and repainted; every
repainted cell is a reachable original-`a` cell now holding `b`; every
repainted cell that is no longer on the stack has all its still-`a`
neighbours repainted; and the seed is repainted. -/
def FloodInv (A : TileGrid) (a b : Option Tile) (start : Nat × Nat)
    (g : TileGrid) (stack : List (Nat × Nat)) : Prop :=
  g.width = A.width ∧ g.height = A.height ∧ g.subgrid.WF ∧
  (∀ c ∈ stack, c.1 < A.width ∧ c.2 < A.height) ∧
  (∀ c ∈ stack, g.get c.1 c.2 ≠ A.get c.1 c.2) ∧
  (∀ c : Nat × Nat, c.1 < A.width → c.2 < A.height →
    g.get c.1 c.2 ≠ A.get c.1 c.2 →
    Reach A a start c ∧ A.get c.1 c.2 = a ∧ g.get c.1 c.2 = b) ∧
  (∀ c : Nat × Nat, c.1 < A.width → c.2 < A.height →
    g.get c.1 c.2 ≠ A.get c.1 c.2 → c ∉ stack →
    ∀ d ∈ neighbors A.width A.height c, A.get d.1 d.2 = a →
      g.get d.1 d.2 ≠ A.get d.1 d.2) ∧
  g.get start.1 start.2 ≠ A.get start.1 start.2

/-- `InnerCanvas::try_flood_fill`, at the cell level (pixel-to-cell
conversion elided as in `tryPaintAt`): a brush equal to the seed's tile is
a no-op returning `false`; otherwise take a `mutation`, paint the seed and
run the stack loop.  The fuel `width*height + 1` is sufficient
(`floodLoop_terminates`), so the `getD` default is never taken. -/
def tryFloodFillAt (st : EditorState) (start : Nat × Nat) :
    EditorState × Bool :=
  let toTile := st.brush
  let fromTile := st.current.tilegrid.get start.1 start.2
  if fromTile = toTile then (st, false)
  else
    let st := st.mutationBegin
    let g := st.current.tilegrid
    let g1 := g.set start.1 start.2 toTile
    let g2 := (floodLoop fromTile toTile (g.width * g.height + 1) g1
      [start]).getD g1
    (st.withGrid g2, true)

/-- One iteration of the scan of `try_palette_replace`: read the tile at
the visited cell, rewrite `from ↦ to`, and in swap mode `to ↦ from`. -/
def paletteStep (fromTile toTile : Option Tile) (swap : Bool)
    (gg : TileGrid) (c : Nat × Nat) : TileGrid :=
  if gg.get c.1 c.2 = fromTile then gg.set c.1 c.2 toTile
  else if swap ∧ gg.get c.1 c.2 = toTile then gg.set c.1 c.2 fromTile
  else gg

/-- The scan of `try_palette_replace`, visiting cells row by row (each
step reads and writes only its own cell). -/
def paletteScan (fromTile toTile : Option Tile) (swap : Bool)
    (g : TileGrid) : TileGrid :=
  (TileGrid.coordList (List.range g.width) (List.range g.height)).foldl
    (paletteStep fromTile toTile swap) g

/-- The per-cell effect of one `paletteScan` step on its own cell. -/
def swapCell (fromTile toTile : Option Tile) (swap : Bool)
    (v : Option Tile) : Option Tile :=
  if v = fromTile then toTile
  else if swap ∧ v = toTile then fromTile
  else v

/-- `InnerCanvas::try_palette_replace`, at the cell level (pixel-to-cell
conversion elided as in `tryPaintAt`). -/
def tryPaletteReplaceAt (st : EditorState) (start : Nat × Nat)
    (swap : Bool) : EditorState × Bool :=
  let toTile := st.brush
  let fromTile := st.current.tilegrid.get start.1 start.2
  if fromTile = toTile then (st, false)
  else
    let st := { st with brush := fromTile }
    let st := st.mutationBegin
    let g := st.current.tilegrid
    (st.withGrid (paletteScan fromTile toTile swap g), true)

/-- `EditorState::mode_perform_if_necessary`, modelled for the `Edit` and
`LoadFile` modes (the branches the verified claims are about; the
`SaveAs`/`ChangeColor` branches write files / reuse `mutation` and are out
of scope here, modelled as no-ops).  `fs` is the filesystem (path to file
contents), `disk` the tile asset directory. -/
def modePerformIfNecessary (fs : List Byte → Option (List Byte))
    (disk : Disk) (st : EditorState) : EditorState × Bool :=
  if st.should_mode_perform = false then (st, false)
  else
    let st := { st with should_mode_perform := false }
    match st.mode with
    | .LoadFile path =>
      match TileGrid.load_from_path fs disk path with
      | .ok tilegrid =>
        ({ st with
            filepath := path
            current := { st.current with tilegrid := tilegrid, unsaved := false }
            undo_stack := []
            redo_stack := []
            brush := none
            persistent_mutation_active := false
            mode := .Edit }, true)
      | .error _ => (st, false)
    | _ => (st, false)

/-- Did a fallible operation fail? -/
def isErr {α : Type} : Except String α → Bool
  | .error _ => true
  | .ok _ => false

instance {ε α : Type} [DecidableEq ε] [DecidableEq α] :
    DecidableEq (Except ε α) := fun x y =>
  match x, y with
  | .ok a, .ok b =>
    match decEq a b with
    | isTrue h => isTrue (h ▸ rfl)
    | isFalse h => isFalse fun hh => h (Except.ok.inj hh)
  | .error a, .error b =>
    match decEq a b with
    | isTrue h => isTrue (h ▸ rfl)
    | isFalse h => isFalse fun hh => h (Except.error.inj hh)
  | .ok _, .error _ => isFalse fun hh => Except.noConfusion hh
  | .error _, .ok _ => isFalse fun hh => Except.noConfusion hh

/-- The row-updates a parsed row line applies to the subgrid: the parser
advances one column per two-byte cell, writing the occupied ones. -/
def updateRow (row : Nat) : SubGrid → Nat → List (Option Tile) → SubGrid
  | sg, _, [] => sg
  | sg, j, none :: cells => updateRow row sg (j + 1) cells
  | sg, j, some t :: cells =>
    updateRow row (sg.set j row (some t)) (j + 1) cells

/-- The updates a parsed row section applies, row by row. -/
def updateRows : SubGrid → Nat → List (List (Option Tile)) → SubGrid
  | sg, _, [] => sg
  | sg, r, cs :: rest => updateRows (updateRow r sg 0 cs) (r + 1) rest

/-- A grid representable in the save format: well-formed buffer, `u8`
background components, default or byte-sized dimensions, a duplicate-free
newline-free filename list of at most 64 files, and every occupied cell
referencing a declared file with an in-range, base64-encodable tile
index. -/
def TileGrid.Valid (g : TileGrid) : Prop :=
  g.subgrid.WF ∧
  g.background_color.1 ≤ 255 ∧ g.background_color.2.1 ≤ 255 ∧
  g.background_color.2.2 ≤ 255 ∧
  ((g.width = GRID_DEFAULT_NUM_COLS ∧ g.height = GRID_DEFAULT_NUM_ROWS) ∨
    (g.width ≤ 255 ∧ g.height ≤ 255)) ∧
  g.tileset.filenames.Nodup ∧
  g.tileset.tiles.length ≤ 64 ∧
  (∀ f ∈ g.tileset.filenames, 10 ∉ f) ∧
  (∀ cell ∈ g.subgrid.grid, ∀ t ∈ cell,
    t.index < 64 ∧ ∃ p ∈ g.tileset.tiles, p.1 = t.filename ∧ t.index < p.2)

instance : DecidablePred TileGrid.Valid := fun g => by
  unfold TileGrid.Valid
  infer_instance

/-- The filename section of the save format: one `>`-prefixed
newline-terminated line per filename. -/
def nameBytes (names : List Filename) : List Byte :=
  names.flatMap fun f => 62 :: (f ++ [10])

/-- All rows of the grid, as cell lists. -/
def rowCellsList (g : TileGrid) : List (List (Option Tile)) :=
  (List.range g.height).map g.rowCells

/-- Drop trailing all-empty rows (the cell-level image of `trimTrailing`
on the encoded lines). -/
def trimCells (rcs : List (List (Option Tile))) : List (List (Option Tile)) :=
  (rcs.reverse.dropWhile fun cs => cs.all Option.isNone).reverse

/-! ## Concrete example data (used to instantiate the verified
properties) -/

/-- An example tileset: one file (named by the single byte `a`) holding
two images. -/
def exTileset : Tileset := ⟨[([97], 2)]⟩

/-- The matching asset directory. -/
def exDisk : Disk := [([97], 2)]

/-- An example default-size grid with tiles at `(0,0)` and `(20,5)`. -/
def exGrid36 : TileGrid :=
  ((TileGrid.new exTileset).set 0 0 (some ⟨[97], 0⟩)).set 20 5 (some ⟨[97], 1⟩)

/-- A small example grid: 3×2, tiles at `(0,0)` and `(2,1)`. -/
def exGrid3x2 : TileGrid :=
  ⟨(1, 2, 3), exTileset,
    ⟨3, 2, [some ⟨[97], 0⟩, none, none, none, none, some ⟨[97], 1⟩]⟩⟩

/-- An example editor state over `exGrid3x2`. -/
def exState : EditorState :=
  { EditorState.new [98] exTileset with current := ⟨exGrid3x2, none, false⟩ }

/-- `exState` with a non-empty brush. -/
def exStateB : EditorState := { exState with brush := some ⟨[97], 1⟩ }

/-- `exState` about to perform a pending `LoadFile` of path `c`. -/
def exStateLoad : EditorState :=
  { exState with mode := .LoadFile [99], should_mode_perform := true }

/-- A common valid prefix for malformed save files:
`"@BG 0 0 0 1x1\n>a\n\n"`. -/
def exHeader1x1 : List Byte :=
  [64, 66, 71, 32, 48, 32, 48, 32, 48, 32, 49, 120, 49, 10, 62, 97, 10, 10]

/-- Malformed header: `"@BG 1 2 3&\n"` (a `&` where a newline, space or
digit is expected). -/
def exBadHeader : List Byte :=
  [64, 66, 71, 32, 49, 32, 50, 32, 51, 38, 10]

/-- Row data with an out-of-base64-alphabet byte (`!`). -/
def exBadTileByte : List Byte := exHeader1x1 ++ [33, 65, 10]

/-- Row data referencing file index 1 (`B`) in a one-file tileset. -/
def exUndeclaredTile : List Byte := exHeader1x1 ++ [66, 65, 10]

/-- Row data with two cells on a declared width of 1. -/
def exTooManyCols : List Byte := exHeader1x1 ++ [65, 65, 65, 65, 10]

/-! ## Generic lemmas about coordinate folds -/

/-- Linear indices of distinct in-bounds coordinates are distinct. -/
theorem rowMajor_inj {w : Nat} {c c' r r' : Nat} (hc : c < w) (hc' : c' < w)
    (h : r * w + c = r' * w + c') : c = c' ∧ r = r' := by
  have hw : 0 < w := Nat.lt_of_le_of_lt (Nat.zero_le _) hc
  have h1 : (r * w + c) % w = c := by
    rw [Nat.mul_comm, Nat.mul_add_mod]
    exact Nat.mod_eq_of_lt hc
  have h2 : (r' * w + c') % w = c' := by
    rw [Nat.mul_comm, Nat.mul_add_mod]
    exact Nat.mod_eq_of_lt hc'
  have hcc : c = c' := by rw [← h1, h, h2]
  refine ⟨hcc, ?_⟩
  have hr : r * w = r' * w := by omega
  exact Nat.eq_of_mul_eq_mul_right hw hr

/-- The linear index of an in-bounds cell is within the buffer. -/
theorem idx_lt {sg : SubGrid} (hwf : sg.WF) {c r : Nat} (hc : c < sg.width)
    (hr : r < sg.height) : r * sg.width + c < sg.grid.length := by
  rw [hwf]
  calc r * sg.width + c < r * sg.width + sg.width := by omega
  _ = (r + 1) * sg.width := by ring
  _ ≤ sg.height * sg.width := Nat.mul_le_mul_right _ hr
  _ = sg.width * sg.height := Nat.mul_comm _ _

theorem SubGrid.get_eq_getElem {sg : SubGrid} (hwf : sg.WF) {c r : Nat}
    (hc : c < sg.width) (hr : r < sg.height) :
    sg.get c r = sg.grid.get ⟨r * sg.width + c, idx_lt hwf hc hr⟩ := by
  unfold SubGrid.get
  rw [List.getD_eq_getElem sg.grid none (idx_lt hwf hc hr)]
  exact (List.get_eq_getElem sg.grid
    ⟨r * sg.width + c, idx_lt hwf hc hr⟩).symm

theorem SubGrid.get_set_self {sg : SubGrid} {c r : Nat} {v : Option Tile}
    (hwf : sg.WF) (hc : c < sg.width) (hr : r < sg.height) :
    (sg.set c r v).get c r = v := by
  unfold SubGrid.get SubGrid.set
  have hidx : r * sg.width + c < sg.grid.length := idx_lt hwf hc hr
  simp only [List.getD, List.get?_eq_getElem?]
  rw [List.getElem?_set_eq_of_lt _ hidx]
  rfl

theorem SubGrid.get_set_ne {sg : SubGrid} {c r c' r' : Nat} {v : Option Tile}
    (hc : c < sg.width) (hc' : c' < sg.width)
    (hne : ¬(c' = c ∧ r' = r)) :
    (sg.set c r v).get c' r' = sg.get c' r' := by
  unfold SubGrid.get SubGrid.set
  have hidx : r * sg.width + c ≠ r' * sg.width + c' := by
    intro h
    exact hne ⟨(rowMajor_inj hc hc' h).1.symm, (rowMajor_inj hc hc' h).2.symm⟩
  simp only [List.getD, List.get?_eq_getElem?]
  rw [List.getElem?_set_ne hidx]

theorem SubGrid.width_set (sg : SubGrid) (c r : Nat) (v : Option Tile) :
    (sg.set c r v).width = sg.width := rfl

theorem SubGrid.height_set (sg : SubGrid) (c r : Nat) (v : Option Tile) :
    (sg.set c r v).height = sg.height := rfl

theorem SubGrid.wf_set {sg : SubGrid} (hwf : sg.WF) (c r : Nat)
    (v : Option Tile) : (sg.set c r v).WF := by
  unfold SubGrid.WF SubGrid.set at *
  simpa using hwf

theorem SubGrid.wf_new (w h : Nat) : (SubGrid.new w h).WF := by
  unfold SubGrid.WF SubGrid.new
  simp

theorem SubGrid.get_new (w h c r : Nat) : (SubGrid.new w h).get c r = none := by
  unfold SubGrid.get SubGrid.new
  simp only [List.getD, List.get?_eq_getElem?, List.getElem?_replicate]
  split <;> rfl

theorem mem_coordList {cols rows : List Nat} {c r : Nat} :
    (c, r) ∈ TileGrid.coordList cols rows ↔ c ∈ cols ∧ r ∈ rows := by
  simp only [TileGrid.coordList, List.mem_flatMap, List.mem_map, Prod.mk.injEq]
  constructor
  · rintro ⟨r', hr', c', hc', rfl, rfl⟩
    exact ⟨hc', hr'⟩
  · rintro ⟨hc, hr⟩
    exact ⟨r, hr, c, hc, rfl, rfl⟩

theorem coordList_nodup {cols rows : List Nat} (hc : cols.Nodup)
    (hr : rows.Nodup) : (TileGrid.coordList cols rows).Nodup := by
  unfold TileGrid.coordList
  rw [List.nodup_flatMap]
  refine ⟨fun r _ => hc.map fun a b h => by simpa using h, ?_⟩
  refine hr.imp ?_
  intro a b hab
  simp only [Function.onFun, List.disjoint_left, List.mem_map]
  rintro x ⟨c, _, rfl⟩ ⟨c', _, h⟩
  exact hab (by simpa using (Prod.mk.injEq .. ▸ h).2.symm ▸ rfl)

/-- Folding cell-writes (with the written value a function of the
coordinate only) over a duplicate-free in-bounds coordinate list. -/
theorem foldl_set_get (l : List (Nat × Nat)) (f : Nat × Nat → Option Tile)
    (sg : SubGrid) (hnd : l.Nodup)
    (hin : ∀ d ∈ l, d.1 < sg.width ∧ d.2 < sg.height) (hwf : sg.WF)
    {c r : Nat} (hc : c < sg.width) (hr : r < sg.height) :
    (l.foldl (fun sg d => sg.set d.1 d.2 (f d)) sg).get c r =
      if (c, r) ∈ l then f (c, r) else sg.get c r := by
  induction l generalizing sg with
  | nil => simp
  | cons d rest ih =>
    have hd := hin d (List.mem_cons_self ..)
    have hstep :
        (List.foldl (fun sg d => sg.set d.1 d.2 (f d)) sg (d :: rest)) =
        (List.foldl (fun sg d => sg.set d.1 d.2 (f d))
          (sg.set d.1 d.2 (f d)) rest) := rfl
    rw [hstep, ih (sg.set d.1 d.2 (f d)) hnd.of_cons
      (fun e he => hin e (List.mem_cons_of_mem _ he))
      (SubGrid.wf_set hwf _ _ _) hc hr]
    by_cases hm : (c, r) = d
    · subst hm
      have : (c, r) ∉ rest := by
        intro h
        exact (List.nodup_cons.mp hnd).1 h
      simp only [this, if_neg this, List.mem_cons, true_or, if_pos (Or.inl rfl)]
      exact SubGrid.get_set_self hwf hc hr
    · have hmem : ((c, r) ∈ d :: rest) ↔ ((c, r) ∈ rest) := by
        simp [List.mem_cons, hm]
      by_cases hm2 : (c, r) ∈ rest
      · simp [hm2, hmem.mpr hm2]
      · rw [if_neg hm2, if_neg (by simp [List.mem_cons, hm, hm2])]
        exact SubGrid.get_set_ne hd.1 hc
          (fun h => hm (Prod.ext_iff.mpr ⟨h.1, h.2⟩))

theorem foldl_set_width (l : List (Nat × Nat)) (f : Nat × Nat → Option Tile)
    (sg : SubGrid) :
    (l.foldl (fun sg d => sg.set d.1 d.2 (f d)) sg).width = sg.width := by
  induction l generalizing sg with
  | nil => rfl
  | cons d rest ih => exact (ih _).trans rfl

theorem foldl_set_height (l : List (Nat × Nat)) (f : Nat × Nat → Option Tile)
    (sg : SubGrid) :
    (l.foldl (fun sg d => sg.set d.1 d.2 (f d)) sg).height = sg.height := by
  induction l generalizing sg with
  | nil => rfl
  | cons d rest ih => exact (ih _).trans rfl

theorem foldl_set_wf (l : List (Nat × Nat)) (f : Nat × Nat → Option Tile)
    (sg : SubGrid) (hwf : sg.WF) :
    (l.foldl (fun sg d => sg.set d.1 d.2 (f d)) sg).WF := by
  induction l generalizing sg with
  | nil => exact hwf
  | cons d rest ih => exact ih _ (SubGrid.wf_set hwf _ _ _)

theorem SubGrid.new_width (w h : Nat) : (SubGrid.new w h).width = w := rfl

theorem SubGrid.new_height (w h : Nat) : (SubGrid.new w h).height = h := rfl

/-! ## Resize (claim C9) -/

theorem TileGrid.width_resize (g : TileGrid) (w' h' : Nat) :
    (g.resize w' h').width = w' := by
  unfold TileGrid.resize TileGrid.width
  exact (foldl_set_width _ _ _).trans rfl

theorem TileGrid.height_resize (g : TileGrid) (w' h' : Nat) :
    (g.resize w' h').height = h' := by
  unfold TileGrid.resize TileGrid.height
  exact (foldl_set_height _ _ _).trans rfl

theorem TileGrid.wf_resize (g : TileGrid) (w' h' : Nat) :
    (g.resize w' h').subgrid.WF := by
  unfold TileGrid.resize
  exact foldl_set_wf _ _ _ (SubGrid.wf_new _ _)

theorem TileGrid.get_resize (g : TileGrid) (w' h' : Nat) {c r : Nat}
    (hc : c < w') (hr : r < h') :
    (g.resize w' h').get c r =
      if c < min g.width w' ∧ r < min g.height h' then g.get c r else none := by
  unfold TileGrid.resize TileGrid.get
  show (List.foldl _ (SubGrid.new w' h') _).get c r = _
  rw [foldl_set_get _ _ _
    (coordList_nodup (List.nodup_range _) (List.nodup_range _))
    (fun d hd => by
      have hm := mem_coordList.mp (show (d.1, d.2) ∈ _ from hd)
      simp only [List.mem_range] at hm
      exact ⟨lt_of_lt_of_le hm.1 (Nat.min_le_right _ _),
             lt_of_lt_of_le hm.2 (Nat.min_le_right _ _)⟩)
    (SubGrid.wf_new _ _) hc hr]
  simp only [mem_coordList, List.mem_range, SubGrid.get_new]

/-- **C9**: for every grid and every new size, `resize` preserves the
contents of every cell in the overlapping top-left region, makes every
newly exposed cell empty, and discards cells outside the new bounds; as a
consequence, shrinking a 36×24 grid to 10×10 and resizing back to 36×24
leaves every cell outside the kept 10×10 region empty (the discarded
cells are not restored). -/
theorem resize_preserves_overlap_discards_rest (g : TileGrid) :
    (∀ w' h' c r, c < w' → r < h' →
      (g.resize w' h').get c r =
        if c < min g.width w' ∧ r < min g.height h' then g.get c r
        else none) ∧
    (g.width = 36 → g.height = 24 → ∀ c r, c < 36 → r < 24 →
      ((g.resize 10 10).resize 36 24).get c r =
        if c < 10 ∧ r < 10 then g.get c r else none) := by
  refine ⟨fun w' h' c r hc hr => TileGrid.get_resize g w' h' hc hr, ?_⟩
  intro h36 h24 c r hc hr
  rw [TileGrid.get_resize _ 36 24 hc hr, TileGrid.width_resize,
    TileGrid.height_resize]
  by_cases hcr : c < 10 ∧ r < 10
  · rw [if_pos (by omega : c < min 10 36 ∧ r < min 10 24), if_pos hcr,
      TileGrid.get_resize g 10 10 hcr.1 hcr.2, h36, h24,
      if_pos (by omega : c < min 36 10 ∧ r < min 24 10)]
  · rw [if_neg (by omega : ¬(c < min 10 36 ∧ r < min 10 24)), if_neg hcr]

/-- Witness for C9 at a concrete grid: the kept region survives the
shrink, the discarded cell does not come back after growing again. -/
theorem resize_overlap_witness :
    (exGrid36.resize 10 10).get 0 0 = some ⟨[97], 0⟩ ∧
    ((exGrid36.resize 10 10).resize 36 24).get 20 5 = none := by
  have h := resize_preserves_overlap_discards_rest exGrid36
  exact ⟨(h.1 10 10 0 0 (by decide) (by decide)).trans (by decide),
    (h.2 (by decide) (by decide) 20 5 (by decide) (by decide)).trans
      (by decide)⟩

/-! ## Palette replace / swap (claim C6) -/

theorem TileGrid.set_width (g : TileGrid) (c r : Nat) (v : Option Tile) :
    (g.set c r v).width = g.width := rfl

theorem TileGrid.set_height (g : TileGrid) (c r : Nat) (v : Option Tile) :
    (g.set c r v).height = g.height := rfl

theorem TileGrid.set_wf {g : TileGrid} (hwf : g.subgrid.WF) (c r : Nat)
    (v : Option Tile) : (g.set c r v).subgrid.WF :=
  SubGrid.wf_set hwf c r v

theorem TileGrid.set_get_self {g : TileGrid} {c r : Nat} {v : Option Tile}
    (hwf : g.subgrid.WF) (hc : c < g.width) (hr : r < g.height) :
    (g.set c r v).get c r = v :=
  SubGrid.get_set_self hwf hc hr

theorem TileGrid.set_get_ne {g : TileGrid} {c r c' r' : Nat} {v : Option Tile}
    (hc : c < g.width) (hc' : c' < g.width)
    (hne : ¬(c' = c ∧ r' = r)) :
    (g.set c r v).get c' r' = g.get c' r' :=
  SubGrid.get_set_ne hc hc' hne

theorem paletteStep_width (f t : Option Tile) (sw : Bool) (g : TileGrid)
    (c : Nat × Nat) : (paletteStep f t sw g c).width = g.width := by
  unfold paletteStep
  split
  · rfl
  · split
    · rfl
    · rfl

theorem paletteStep_height (f t : Option Tile) (sw : Bool) (g : TileGrid)
    (c : Nat × Nat) : (paletteStep f t sw g c).height = g.height := by
  unfold paletteStep
  split
  · rfl
  · split
    · rfl
    · rfl

theorem paletteStep_wf (f t : Option Tile) (sw : Bool) {g : TileGrid}
    (hwf : g.subgrid.WF) (c : Nat × Nat) :
    (paletteStep f t sw g c).subgrid.WF := by
  unfold paletteStep
  split
  · exact TileGrid.set_wf hwf _ _ _
  · split
    · exact TileGrid.set_wf hwf _ _ _
    · exact hwf

theorem paletteStep_get_self (f t : Option Tile) (sw : Bool) {g : TileGrid}
    (hwf : g.subgrid.WF) {d : Nat × Nat} (hc : d.1 < g.width)
    (hr : d.2 < g.height) :
    (paletteStep f t sw g d).get d.1 d.2 = swapCell f t sw (g.get d.1 d.2) := by
  unfold paletteStep swapCell
  by_cases h1 : g.get d.1 d.2 = f
  · rw [if_pos h1, if_pos h1]
    exact TileGrid.set_get_self hwf hc hr
  · rw [if_neg h1, if_neg h1]
    by_cases h2 : sw = true ∧ g.get d.1 d.2 = t
    · rw [if_pos h2, if_pos h2]
      exact TileGrid.set_get_self hwf hc hr
    · rw [if_neg h2, if_neg h2]

theorem paletteStep_get_ne (f t : Option Tile) (sw : Bool) {g : TileGrid}
    {d : Nat × Nat} (hc : d.1 < g.width) {c r : Nat} (hc' : c < g.width)
    (hne : ¬(c = d.1 ∧ r = d.2)) :
    (paletteStep f t sw g d).get c r = g.get c r := by
  unfold paletteStep
  split
  · exact TileGrid.set_get_ne hc hc' hne
  · split
    · exact TileGrid.set_get_ne hc hc' hne
    · rfl

theorem paletteFold_width (f t : Option Tile) (sw : Bool)
    (l : List (Nat × Nat)) (g : TileGrid) :
    (l.foldl (paletteStep f t sw) g).width = g.width := by
  induction l generalizing g with
  | nil => rfl
  | cons d rest ih => exact (ih _).trans (paletteStep_width ..)

theorem paletteFold_height (f t : Option Tile) (sw : Bool)
    (l : List (Nat × Nat)) (g : TileGrid) :
    (l.foldl (paletteStep f t sw) g).height = g.height := by
  induction l generalizing g with
  | nil => rfl
  | cons d rest ih => exact (ih _).trans (paletteStep_height ..)

theorem paletteFold_wf (f t : Option Tile) (sw : Bool)
    (l : List (Nat × Nat)) {g : TileGrid} (hwf : g.subgrid.WF) :
    (l.foldl (paletteStep f t sw) g).subgrid.WF := by
  induction l generalizing g with
  | nil => exact hwf
  | cons d rest ih => exact ih (paletteStep_wf f t sw hwf d)

theorem paletteFold_get (f t : Option Tile) (sw : Bool)
    (l : List (Nat × Nat)) {g : TileGrid} (hwf : g.subgrid.WF)
    (hnd : l.Nodup) (hin : ∀ d ∈ l, d.1 < g.width ∧ d.2 < g.height)
    {c r : Nat} (hc : c < g.width) (hr : r < g.height) :
    (l.foldl (paletteStep f t sw) g).get c r =
      if (c, r) ∈ l then swapCell f t sw (g.get c r) else g.get c r := by
  induction l generalizing g with
  | nil => simp
  | cons d rest ih =>
    have hd := hin d (List.mem_cons_self ..)
    have hw1 := paletteStep_width f t sw g d
    have hh1 := paletteStep_height f t sw g d
    rw [List.foldl_cons,
      ih (paletteStep_wf f t sw hwf d) hnd.of_cons
        (fun e he => hw1 ▸ hh1 ▸ hin e (List.mem_cons_of_mem _ he))
        (hw1 ▸ hc) (hh1 ▸ hr)]
    by_cases hm : (c, r) = d
    · have hcd : c = d.1 ∧ r = d.2 := by
        refine ⟨?_, ?_⟩ <;> rw [← hm]
      have hnotrest : (c, r) ∉ rest := fun h => (List.nodup_cons.mp hnd).1 (hm ▸ h)
      rw [if_neg hnotrest, if_pos (hm ▸ List.mem_cons_self ..)]
      rw [hcd.1, hcd.2]
      exact paletteStep_get_self f t sw hwf hd.1 hd.2
    · have hg : (paletteStep f t sw g d).get c r = g.get c r :=
        paletteStep_get_ne f t sw hd.1 hc
          (fun h => hm (Prod.ext_iff.mpr ⟨h.1, h.2⟩))
      rw [hg]
      by_cases hm2 : (c, r) ∈ rest
      · rw [if_pos hm2, if_pos (List.mem_cons_of_mem _ hm2)]
      · rw [if_neg hm2, if_neg (by simp [List.mem_cons, hm, hm2])]

theorem paletteScan_get (f t : Option Tile) (sw : Bool) {g : TileGrid}
    (hwf : g.subgrid.WF) {c r : Nat} (hc : c < g.width) (hr : r < g.height) :
    (paletteScan f t sw g).get c r = swapCell f t sw (g.get c r) := by
  unfold paletteScan
  rw [paletteFold_get f t sw _ hwf
    (coordList_nodup (List.nodup_range _) (List.nodup_range _))
    (fun d hd => by
      have hm := mem_coordList.mp (show (d.1, d.2) ∈ _ from hd)
      simp only [List.mem_range] at hm
      exact hm) hc hr]
  rw [if_pos (mem_coordList.mpr (by simp [List.mem_range, hc, hr]))]

theorem paletteScan_width (f t : Option Tile) (sw : Bool) (g : TileGrid) :
    (paletteScan f t sw g).width = g.width := by
  unfold paletteScan
  exact paletteFold_width f t sw _ g

theorem paletteScan_height (f t : Option Tile) (sw : Bool) (g : TileGrid) :
    (paletteScan f t sw g).height = g.height := by
  unfold paletteScan
  exact paletteFold_height f t sw _ g

theorem paletteScan_wf (f t : Option Tile) (sw : Bool) {g : TileGrid}
    (hwf : g.subgrid.WF) : (paletteScan f t sw g).subgrid.WF := by
  unfold paletteScan
  exact paletteFold_wf f t sw _ hwf

/-- Double swap of two distinct values is the identity on every cell
value. -/
theorem swapCell_involutive {a b : Option Tile} (hab : a ≠ b)
    (v : Option Tile) : swapCell b a true (swapCell a b true v) = v := by
  unfold swapCell
  by_cases hva : v = a
  · simp [hva, hab, Ne.symm hab]
  · by_cases hvb : v = b
    · simp [hva, hvb, hab, Ne.symm hab]
    · simp [hva, hvb]

/-- Characterization of `tryPaletteReplaceAt` when the clicked tile and
the brush differ. -/
theorem tryPaletteReplace_changed {st : EditorState} {start : Nat × Nat}
    (sw : Bool)
    (hne : st.current.tilegrid.get start.1 start.2 ≠ st.brush) :
    (tryPaletteReplaceAt st start sw).1.current.tilegrid =
      paletteScan (st.current.tilegrid.get start.1 start.2) st.brush sw
        st.current.tilegrid ∧
    (tryPaletteReplaceAt st start sw).1.brush =
      st.current.tilegrid.get start.1 start.2 := by
  unfold tryPaletteReplaceAt
  rw [if_neg hne]
  exact ⟨rfl, rfl⟩

/-- **C6**: palette swap is self-inverse: with `A` the clicked cell's
tile, `B ≠ A` the brush, running the swap scan and then running it again
(clicking the same cell, which now holds `B`, with the brush now `A`)
restores every cell of the grid to its original value. -/
theorem palette_swap_self_inverse (st : EditorState) (start : Nat × Nat)
    (hwf : st.current.tilegrid.subgrid.WF)
    (hc : start.1 < st.current.tilegrid.width)
    (hr : start.2 < st.current.tilegrid.height)
    (hne : st.current.tilegrid.get start.1 start.2 ≠ st.brush) :
    ∀ c r, c < st.current.tilegrid.width → r < st.current.tilegrid.height →
      ((tryPaletteReplaceAt (tryPaletteReplaceAt st start true).1 start
          true).1).current.tilegrid.get c r =
        st.current.tilegrid.get c r := by
  intro c r hcc hrr
  set g := st.current.tilegrid with hgdef
  set A := g.get start.1 start.2 with hAdef
  set B := st.brush with hBdef
  have h1 := tryPaletteReplace_changed true hne
  set st1 := (tryPaletteReplaceAt st start true).1 with hst1
  have hg1 : st1.current.tilegrid = paletteScan A B true g := h1.1
  have hb1 : st1.brush = A := h1.2
  have hwf1 : st1.current.tilegrid.subgrid.WF := by
    rw [hg1]; exact paletteScan_wf _ _ _ hwf
  have hw1 : st1.current.tilegrid.width = g.width := by
    rw [hg1]; exact paletteScan_width ..
  have hh1 : st1.current.tilegrid.height = g.height := by
    rw [hg1]; exact paletteScan_height ..
  have hstart1 : st1.current.tilegrid.get start.1 start.2 = B := by
    rw [hg1, paletteScan_get _ _ _ hwf hc hr, ← hAdef]
    unfold swapCell
    rw [if_pos rfl]
  have hne1 : st1.current.tilegrid.get start.1 start.2 ≠ st1.brush := by
    rw [hstart1, hb1]
    exact Ne.symm hne
  have h2 := tryPaletteReplace_changed true hne1
  rw [h2.1, hstart1, hb1]
  rw [paletteScan_get B A true hwf1 (hw1 ▸ hcc) (hh1 ▸ hrr)]
  rw [hg1, paletteScan_get A B true hwf hcc hrr]
  exact swapCell_involutive hne (g.get c r)

/-- Witness for C6: a concrete double swap restoring a 3×2 grid. -/
theorem palette_swap_witness :
    ((tryPaletteReplaceAt (tryPaletteReplaceAt exState (0, 0) true).1 (0, 0)
        true).1).current.tilegrid.get 0 0 =
      exState.current.tilegrid.get 0 0 ∧
    ((tryPaletteReplaceAt (tryPaletteReplaceAt exState (0, 0) true).1 (0, 0)
        true).1).current.tilegrid.get 2 1 =
      exState.current.tilegrid.get 2 1 :=
  ⟨palette_swap_self_inverse exState (0, 0) (by decide) (by decide)
    (by decide) (by decide) 0 0 (by decide) (by decide),
   palette_swap_self_inverse exState (0, 0) (by decide) (by decide)
    (by decide) (by decide) 2 1 (by decide) (by decide)⟩

/-! ## Flood fill no-op (claim C7) -/

/-- **C7**: if the brush equals the tile at the clicked seed cell
(including both empty), flood fill returns `false` and leaves the editor
state — the grid and the undo stack in particular — completely
unchanged. -/
theorem flood_fill_noop_when_brush_equals_seed (st : EditorState)
    (start : Nat × Nat)
    (h : st.current.tilegrid.get start.1 start.2 = st.brush) :
    tryFloodFillAt st start = (st, false) := by
  unfold tryFloodFillAt
  rw [if_pos h]

/-- Witness for C7: flood-filling an empty cell with an empty brush. -/
theorem flood_fill_noop_witness :
    tryFloodFillAt exState (1, 0) = (exState, false) :=
  flood_fill_noop_when_brush_equals_seed exState (1, 0) (by decide)

/-! ## Drag-paint coalescing (claim C5) -/

/-- The last snapshot pushed is always the most recent stack entry, even
when the bounded depth drops the oldest entry. -/
theorem pushSnap_getLast (l : List Snapshot) (s : Snapshot) :
    (EditorState.pushSnap l s).getLast? = some s := by
  unfold EditorState.pushSnap
  by_cases h : MAX_UNDOS < (l ++ [s]).length
  · rw [if_pos h]
    cases l with
    | nil => simp [MAX_UNDOS] at h
    | cons x xs => simp
  · rw [if_neg h]
    simp

/-- A mouse-down pencil paint resets and re-enters persistent-mutation
coalescing: it pushes exactly the pre-gesture snapshot. -/
theorem pencilMouseDown_state (st : EditorState) (pos : Nat × Nat) :
    (pencilMouseDown st pos).1.undo_stack =
      EditorState.pushSnap st.undo_stack st.current ∧
    (pencilMouseDown st pos).1.persistent_mutation_active = true := by
  unfold pencilMouseDown tryPaintAt EditorState.persistentBegin
    EditorState.reset_persistent_mutation EditorState.push_change
    EditorState.withGrid
  simp

/-- A drag paint during an active coalesced gesture touches only the
current snapshot. -/
theorem pencilMouseDrag_state (st : EditorState) (pos : Nat × Nat)
    (h : st.persistent_mutation_active = true) :
    (pencilMouseDrag st pos).1.undo_stack = st.undo_stack ∧
    (pencilMouseDrag st pos).1.persistent_mutation_active = true := by
  unfold pencilMouseDrag tryPaintAt EditorState.persistentBegin
    EditorState.withGrid
  simp [h]

/-- **C5**: an uninterrupted drag-paint gesture (one mouse-down paint and
any number of drag paints, with no intervening mutation or gesture reset)
pushes exactly one entry — the pre-gesture snapshot — onto the undo
stack, and a single subsequent `undo()` succeeds and restores the
pre-gesture snapshot, reverting all painted cells at once. -/
theorem pencil_gesture_single_undo (st : EditorState) (first : Nat × Nat)
    (drags : List (Nat × Nat))
    (_hfirst : first.1 < st.current.tilegrid.width ∧
      first.2 < st.current.tilegrid.height)
    (_hdrags : ∀ p ∈ drags, p.1 < st.current.tilegrid.width ∧
      p.2 < st.current.tilegrid.height) :
    (pencilGesture st first drags).undo_stack =
      EditorState.pushSnap st.undo_stack st.current ∧
    ((pencilGesture st first drags).undo).2 = true ∧
    ((pencilGesture st first drags).undo).1.current = st.current := by
  have key : ∀ (l : List (Nat × Nat)) (s : EditorState),
      s.undo_stack = EditorState.pushSnap st.undo_stack st.current →
      s.persistent_mutation_active = true →
      (l.foldl (fun s p => (pencilMouseDrag s p).1) s).undo_stack =
        EditorState.pushSnap st.undo_stack st.current ∧
      (l.foldl (fun s p => (pencilMouseDrag s p).1)
        s).persistent_mutation_active = true := by
    intro l
    induction l with
    | nil => exact fun s h1 h2 => ⟨h1, h2⟩
    | cons p rest ih =>
      intro s h1 h2
      have hstep := pencilMouseDrag_state s p h2
      exact ih _ (hstep.1.trans h1) hstep.2
  have hdown := pencilMouseDown_state st first
  have hstack := key drags _ hdown.1 hdown.2
  have hlast : (pencilGesture st first drags).undo_stack.getLast? =
      some st.current := by
    unfold pencilGesture
    rw [hstack.1]
    exact pushSnap_getLast _ _
  have hstack1 : (pencilGesture st first drags).undo_stack =
      EditorState.pushSnap st.undo_stack st.current := hstack.1
  constructor
  · exact hstack1
  constructor
  · unfold EditorState.undo
    rw [hlast]
  · unfold EditorState.undo
    rw [hlast]

/-- Witness for C5: a three-cell gesture on a concrete state produces one
undo entry and one undo reverts it. -/
theorem pencil_gesture_witness :
    (pencilGesture exStateB (0, 0) [(1, 0), (2, 0)]).undo_stack =
      EditorState.pushSnap exStateB.undo_stack exStateB.current ∧
    ((pencilGesture exStateB (0, 0) [(1, 0), (2, 0)]).undo).2 = true ∧
    ((pencilGesture exStateB (0, 0) [(1, 0), (2, 0)]).undo).1.current =
      exStateB.current :=
  pencil_gesture_single_undo exStateB (0, 0) [(1, 0), (2, 0)] (by decide)
    (by decide)

/-! ## Flood fill (claims C4 and C10) -/

theorem neighbors_bounds {w h : Nat} {c : Nat × Nat} (hc : c.1 < w)
    (hr : c.2 < h) : ∀ d ∈ neighbors w h c, d.1 < w ∧ d.2 < h := by
  intro d hd
  simp only [neighbors, List.mem_append] at hd
  rcases hd with ((h1 | h1) | h1) | h1 <;>
    (split at h1 <;> simp_all <;> omega)

theorem processNeighbors_width (a b : Option Tile) :
    ∀ (nb : List (Nat × Nat)) (g : TileGrid) (s : List (Nat × Nat)),
      (processNeighbors a b nb g s).1.width = g.width := by
  intro nb
  induction nb with
  | nil => intro g s; rfl
  | cons d nb ih =>
    intro g s
    unfold processNeighbors
    split
    · exact (ih _ _).trans (TileGrid.set_width ..)
    · exact ih _ _

theorem processNeighbors_height (a b : Option Tile) :
    ∀ (nb : List (Nat × Nat)) (g : TileGrid) (s : List (Nat × Nat)),
      (processNeighbors a b nb g s).1.height = g.height := by
  intro nb
  induction nb with
  | nil => intro g s; rfl
  | cons d nb ih =>
    intro g s
    unfold processNeighbors
    split
    · exact (ih _ _).trans (TileGrid.set_height ..)
    · exact ih _ _

theorem processNeighbors_wf (a b : Option Tile) :
    ∀ (nb : List (Nat × Nat)) (g : TileGrid) (s : List (Nat × Nat)),
      g.subgrid.WF → (processNeighbors a b nb g s).1.subgrid.WF := by
  intro nb
  induction nb with
  | nil => intro g s h; exact h
  | cons d nb ih =>
    intro g s h
    unfold processNeighbors
    split
    · exact ih _ _ (TileGrid.set_wf h _ _ _)
    · exact ih _ _ h

/-- Every property holding of all processed neighbours and all previous
stack entries holds of all entries of the output stack. -/
theorem processNeighbors_stack_pred (a b : Option Tile)
    (P : Nat × Nat → Prop) :
    ∀ (nb : List (Nat × Nat)) (g : TileGrid) (s : List (Nat × Nat)),
      (∀ d ∈ nb, P d) → (∀ e ∈ s, P e) →
      ∀ e ∈ (processNeighbors a b nb g s).2, P e := by
  intro nb
  induction nb with
  | nil => intro g s _ hs; exact hs
  | cons d nb ih =>
    intro g s hnb hs
    unfold processNeighbors
    split
    · exact ih _ _ (fun e he => hnb e (List.mem_cons_of_mem _ he))
        (fun e he => by
          rcases List.mem_cons.mp he with rfl | he'
          · exact hnb e (List.mem_cons_self ..)
          · exact hs e he')
    · exact ih _ _ (fun e he => hnb e (List.mem_cons_of_mem _ he)) hs

theorem countP_set {α : Type} (p : α → Bool) :
    ∀ (l : List α) (i : Nat) (h : i < l.length) (x : α),
      (l.set i x).countP p + (if p l[i] then 1 else 0) =
        l.countP p + (if p x then 1 else 0) := by
  intro l
  induction l with
  | nil => intro i h; simp at h
  | cons y ys ih =>
    intro i h x
    cases i with
    | zero => simp [List.countP_cons]; omega
    | succ j =>
      have hj : j < ys.length := by simpa using h
      have := ih j hj x
      simp only [List.set, List.countP_cons, List.getElem_cons_succ]
      omega

theorem countEq_set (a t : Option Tile) {g : TileGrid} (hwf : g.subgrid.WF)
    {c r : Nat} (hc : c < g.width) (hr : r < g.height)
    (hget : g.get c r = a) (hne : ¬t = a) :
    countEq a (g.set c r t) + 1 = countEq a g := by
  have hidx : r * g.subgrid.width + c < g.subgrid.grid.length :=
    idx_lt hwf hc hr
  have h := countP_set (fun v => decide (v = a)) g.subgrid.grid
    (r * g.subgrid.width + c) hidx t
  have hg : g.subgrid.grid.get ⟨r * g.subgrid.width + c, hidx⟩ = a := by
    rw [← SubGrid.get_eq_getElem hwf hc hr]
    exact hget
  rw [(List.get_eq_getElem g.subgrid.grid
    ⟨r * g.subgrid.width + c, hidx⟩).symm.trans hg] at h
  simp only [decide_eq_true_eq, eq_self_iff_true, if_true, hne, if_false] at h
  unfold countEq TileGrid.set SubGrid.set
  dsimp only
  omega

/-- The flood-fill measure: processing a neighbour list never increases
`count of original-tile cells + stack length`. -/
theorem processNeighbors_measure (a b : Option Tile) (hab : ¬b = a) :
    ∀ (nb : List (Nat × Nat)) (g : TileGrid) (s : List (Nat × Nat)),
      g.subgrid.WF → (∀ d ∈ nb, d.1 < g.width ∧ d.2 < g.height) →
      countEq a (processNeighbors a b nb g s).1 +
          (processNeighbors a b nb g s).2.length ≤
        countEq a g + s.length := by
  intro nb
  induction nb with
  | nil => intro g s _ _; exact Nat.le_refl _
  | cons d nb ih =>
    intro g s hwf hnb
    have hd := hnb d (List.mem_cons_self ..)
    unfold processNeighbors
    split
    · rename_i hget
      have hcount := countEq_set a b hwf hd.1 hd.2 hget hab
      have hrec := ih (g.set d.1 d.2 b) (d :: s)
        (TileGrid.set_wf hwf _ _ _)
        (fun e he => by
          have := hnb e (List.mem_cons_of_mem _ he)
          rwa [TileGrid.set_width, TileGrid.set_height])
      simp only [List.length_cons] at hrec ⊢
      omega
    · exact ih g s hwf (fun e he => hnb e (List.mem_cons_of_mem _ he))

/-- Termination of the flood-fill loop: with fuel at least
`count of original-tile cells + stack length` the loop drains the stack
(because every push repaints an original-tile cell to the distinct brush
tile, and every iteration pops one entry). -/
theorem floodLoop_terminates_aux (a b : Option Tile) (hab : ¬b = a) :
    ∀ (fuel : Nat) (g : TileGrid) (stack : List (Nat × Nat)),
      g.subgrid.WF → (∀ c ∈ stack, c.1 < g.width ∧ c.2 < g.height) →
      countEq a g + stack.length ≤ fuel →
      (floodLoop a b fuel g stack).isSome := by
  intro fuel
  induction fuel with
  | zero =>
    intro g stack _ _ hm
    cases stack with
    | nil => rfl
    | cons c s => simp at hm
  | succ n ih =>
    intro g stack hwf hb hm
    cases stack with
    | nil => rfl
    | cons c s =>
      have hc := hb c (List.mem_cons_self ..)
      have hnbb : ∀ d ∈ neighbors g.width g.height c,
          d.1 < g.width ∧ d.2 < g.height :=
        neighbors_bounds hc.1 hc.2
      show (floodLoop a b n
        (processNeighbors a b (neighbors g.width g.height c) g s).1
        (processNeighbors a b (neighbors g.width g.height c) g s).2).isSome
      refine ih _ _ (processNeighbors_wf a b _ _ _ hwf) ?_ ?_
      · intro e he
        have hp := processNeighbors_stack_pred a b
          (fun d => d.1 < g.width ∧ d.2 < g.height) _ g s hnbb
          (fun e he => hb e (List.mem_cons_of_mem _ he)) e he
        rwa [processNeighbors_width, processNeighbors_height]
      · have := processNeighbors_measure a b hab
          (neighbors g.width g.height c) g s hwf hnbb
        simp only [List.length_cons] at hm
        omega

/-- **C10**: the flood-fill loop terminates on every finite grid: when
the brush differs from the seed cell's original tile, every cell pushed
onto the work stack has just been repainted from the original tile to the
brush, so the count of original-tile cells strictly decreases with each
push; fuel `width*height + 1` (the fuel `try_flood_fill` runs with)
drains the stack. -/
theorem flood_loop_terminates (g : TileGrid) (hwf : g.subgrid.WF)
    (start : Nat × Nat) (hc : start.1 < g.width) (hr : start.2 < g.height)
    (b : Option Tile) (hab : b ≠ g.get start.1 start.2) :
    (floodLoop (g.get start.1 start.2) b (g.width * g.height + 1)
      (g.set start.1 start.2 b) [start]).isSome := by
  refine floodLoop_terminates_aux (g.get start.1 start.2) b hab _ _ _
    (TileGrid.set_wf hwf _ _ _) ?_ ?_
  · intro c hcs
    rcases List.mem_singleton.mp hcs with rfl
    rw [TileGrid.set_width, TileGrid.set_height]
    exact ⟨hc, hr⟩
  · have hlen : (g.set start.1 start.2 b).subgrid.grid.length =
        g.width * g.height := by
      unfold TileGrid.set SubGrid.set
      dsimp only
      rw [List.length_set]
      exact hwf
    have hle : countEq (g.get start.1 start.2) (g.set start.1 start.2 b) ≤
        g.width * g.height := by
      unfold countEq
      rw [← hlen]
      exact List.countP_le_length _
    simp only [List.length_cons, List.length_nil]
    omega

/-- Witness for C10: the loop drains the stack on a concrete fill. -/
theorem flood_loop_terminates_witness :
    (floodLoop (exGrid3x2.get 0 0) none
      (exGrid3x2.width * exGrid3x2.height + 1)
      (exGrid3x2.set 0 0 none) [(0, 0)]).isSome :=
  flood_loop_terminates exGrid3x2 (by decide) (0, 0) (by decide) (by decide)
    none (by decide)

theorem Reach_bounds {A : TileGrid} {a : Option Tile} {start : Nat × Nat}
    (hsw : start.1 < A.width) (hsh : start.2 < A.height) :
    ∀ {e : Nat × Nat}, Reach A a start e → e.1 < A.width ∧ e.2 < A.height := by
  intro e h
  induction h with
  | base => exact ⟨hsw, hsh⟩
  | step _ hmem _ ih => exact neighbors_bounds ih.1 ih.2 _ hmem

/-- Preservation of the flood-fill invariant across the processing of the
neighbour list of the popped cell `c`. -/
theorem processNeighbors_inv (A : TileGrid) (a b : Option Tile)
    (start : Nat × Nat) (hab : a ≠ b)
    (hsw : start.1 < A.width) (hsh : start.2 < A.height)
    (c : Nat × Nat) (hcw : c.1 < A.width) (hch : c.2 < A.height) :
    ∀ (nb : List (Nat × Nat)) (g : TileGrid) (s : List (Nat × Nat)),
    (∀ d ∈ nb, d ∈ neighbors A.width A.height c) →
    g.width = A.width → g.height = A.height → g.subgrid.WF →
    (∀ e ∈ s, e.1 < A.width ∧ e.2 < A.height) →
    (∀ e ∈ s, g.get e.1 e.2 ≠ A.get e.1 e.2) →
    (∀ e : Nat × Nat, e.1 < A.width → e.2 < A.height →
      g.get e.1 e.2 ≠ A.get e.1 e.2 →
      Reach A a start e ∧ A.get e.1 e.2 = a ∧ g.get e.1 e.2 = b) →
    (∀ e : Nat × Nat, e.1 < A.width → e.2 < A.height →
      g.get e.1 e.2 ≠ A.get e.1 e.2 → e ∉ s → e ≠ c →
      ∀ d ∈ neighbors A.width A.height e, A.get d.1 d.2 = a →
        g.get d.1 d.2 ≠ A.get d.1 d.2) →
    g.get c.1 c.2 ≠ A.get c.1 c.2 →
    (∀ d ∈ neighbors A.width A.height c, A.get d.1 d.2 = a →
      g.get d.1 d.2 ≠ A.get d.1 d.2 ∨ d ∈ nb) →
    Reach A a start c →
    g.get start.1 start.2 ≠ A.get start.1 start.2 →
    FloodInv A a b start (processNeighbors a b nb g s).1
      (processNeighbors a b nb g s).2 := by
  intro nb
  induction nb with
  | nil =>
    intro g s _ h1 h2 h3 h4 h5 h6 h7 h8 h9 _ h11
    refine ⟨h1, h2, h3, h4, h5, h6, ?_, h11⟩
    intro e hew heh hep hes d hd hda
    by_cases hec : e = c
    · subst hec
      rcases h9 d hd hda with hpd | hmem
      · exact hpd
      · exact absurd hmem (List.not_mem_nil _)
    · exact h7 e hew heh hep hes hec d hd hda
  | cons d nb ih =>
    intro g s hnb h1 h2 h3 h4 h5 h6 h7 h8 h9 h10 h11
    have hdnbc : d ∈ neighbors A.width A.height c :=
      hnb d (List.mem_cons_self ..)
    have hdb : d.1 < A.width ∧ d.2 < A.height :=
      neighbors_bounds hcw hch d hdnbc
    unfold processNeighbors
    by_cases hgd : g.get d.1 d.2 = a
    · rw [if_pos hgd]
      -- `d` held the original tile, hence was not yet repainted
      have hdunp : g.get d.1 d.2 = A.get d.1 d.2 := by
        by_contra hp
        have := (h6 d hdb.1 hdb.2 hp).2.2
        rw [this] at hgd
        exact hab hgd.symm
      have hAd : A.get d.1 d.2 = a := hdunp ▸ hgd
      set g1 := g.set d.1 d.2 b with hg1
      have hg1w : g1.width = A.width := (TileGrid.set_width ..).trans h1
      have hg1h : g1.height = A.height := (TileGrid.set_height ..).trans h2
      have hg1wf : g1.subgrid.WF := TileGrid.set_wf h3 _ _ _
      have hgetd : g1.get d.1 d.2 = b :=
        TileGrid.set_get_self h3 (h1 ▸ hdb.1) (h2 ▸ hdb.2)
      have hget_ne : ∀ e : Nat × Nat, e.1 < A.width → e ≠ d →
          g1.get e.1 e.2 = g.get e.1 e.2 := by
        intro e hew hed
        exact TileGrid.set_get_ne (h1 ▸ hdb.1) (h1 ▸ hew)
          (fun h => hed (Prod.ext_iff.mpr ⟨h.1, h.2⟩))
      have hd_painted : g1.get d.1 d.2 ≠ A.get d.1 d.2 := by
        rw [hgetd, hAd]
        exact Ne.symm hab
      have hmono : ∀ e : Nat × Nat, e.1 < A.width →
          g.get e.1 e.2 ≠ A.get e.1 e.2 → g1.get e.1 e.2 ≠ A.get e.1 e.2 := by
        intro e hew hep
        by_cases hed : e = d
        · subst hed; exact hd_painted
        · rw [hget_ne e hew hed]; exact hep
      have hcd : c ≠ d := by
        intro h
        rw [← h] at hdunp
        exact h8 hdunp
      refine ih g1 (d :: s)
        (fun e he => hnb e (List.mem_cons_of_mem _ he))
        hg1w hg1h hg1wf ?_ ?_ ?_ ?_ ?_ ?_ h10 ?_
      · intro e he
        rcases List.mem_cons.mp he with rfl | he'
        · exact hdb
        · exact h4 e he'
      · intro e he
        rcases List.mem_cons.mp he with rfl | he'
        · exact hd_painted
        · exact hmono e (h4 e he').1 (h5 e he')
      · intro e hew heh hep
        by_cases hed : e = d
        · subst hed
          exact ⟨Reach.step h10 hdnbc hAd, hAd, hgetd⟩
        · rw [hget_ne e hew hed] at hep
          have := h6 e hew heh hep
          exact ⟨this.1, this.2.1, (hget_ne e hew hed).trans this.2.2⟩
      · intro e hew heh hep hes hec d' hd' hd'a
        have hed : e ≠ d := fun h => hes (h ▸ List.mem_cons_self ..)
        rw [hget_ne e hew hed] at hep
        have hd'b := neighbors_bounds hew heh d' hd'
        exact hmono d' hd'b.1
          (h7 e hew heh hep (fun h => hes (List.mem_cons_of_mem _ h)) hec
            d' hd' hd'a)
      · exact hmono c hcw h8
      · intro d' hd' hd'a
        rcases h9 d' hd' hd'a with hp | hm
        · exact Or.inl (hmono d' (neighbors_bounds hcw hch d' hd').1 hp)
        · rcases List.mem_cons.mp hm with rfl | hm'
          · exact Or.inl hd_painted
          · exact Or.inr hm'
      · exact hmono start hsw h11
    · rw [if_neg hgd]
      refine ih g s (fun e he => hnb e (List.mem_cons_of_mem _ he))
        h1 h2 h3 h4 h5 h6 h7 h8 ?_ h10 h11
      intro d' hd' hd'a
      rcases h9 d' hd' hd'a with hp | hm
      · exact Or.inl hp
      · rcases List.mem_cons.mp hm with rfl | hm'
        · left
          intro hud
          rw [hud] at hgd
          exact hgd hd'a
        · exact Or.inr hm'

/-- When the stack is exhausted, the invariant forces the repainted set
to be exactly the reachable set. -/
theorem floodInv_final (A : TileGrid) (a b : Option Tile)
    (start : Nat × Nat) (hsw : start.1 < A.width) (hsh : start.2 < A.height)
    (g : TileGrid) (hinv : FloodInv A a b start g []) :
    ∀ e : Nat × Nat, e.1 < A.width → e.2 < A.height →
      (Reach A a start e → g.get e.1 e.2 = b) ∧
      (¬Reach A a start e → g.get e.1 e.2 = A.get e.1 e.2) := by
  obtain ⟨_, _, _, _, _, h6, h7, h8⟩ := hinv
  have hrp : ∀ e : Nat × Nat, Reach A a start e →
      g.get e.1 e.2 ≠ A.get e.1 e.2 := by
    intro e hre
    induction hre with
    | base => exact h8
    | @step c' d' hr hmem ha ih =>
      have hcb := Reach_bounds hsw hsh hr
      exact h7 c' hcb.1 hcb.2 ih (List.not_mem_nil _) d' hmem ha
  intro e hew heh
  constructor
  · intro hre
    exact (h6 e hew heh (hrp e hre)).2.2
  · intro hre
    by_contra hp
    exact hre (h6 e hew heh hp).1

/-- Full functional correctness of the flood-fill loop: starting from any
state satisfying the invariant with sufficient fuel, the loop returns a
grid in which exactly the cells reachable from the seed through
original-tile cells hold the brush, and every other cell is untouched. -/
theorem floodLoop_correct (A : TileGrid) (a b : Option Tile) (hab : a ≠ b)
    (start : Nat × Nat) (hsw : start.1 < A.width) (hsh : start.2 < A.height) :
    ∀ (fuel : Nat) (g : TileGrid) (stack : List (Nat × Nat)),
    FloodInv A a b start g stack →
    countEq a g + stack.length ≤ fuel →
    ∃ g', floodLoop a b fuel g stack = some g' ∧
      g'.width = A.width ∧ g'.height = A.height ∧ g'.subgrid.WF ∧
      ∀ e : Nat × Nat, e.1 < A.width → e.2 < A.height →
        (Reach A a start e → g'.get e.1 e.2 = b) ∧
        (¬Reach A a start e → g'.get e.1 e.2 = A.get e.1 e.2) := by
  intro fuel
  induction fuel with
  | zero =>
    intro g stack hinv hm
    cases stack with
    | nil =>
      exact ⟨g, rfl, hinv.1, hinv.2.1, hinv.2.2.1,
        floodInv_final A a b start hsw hsh g hinv⟩
    | cons c s => simp at hm
  | succ n ih =>
    intro g stack hinv hm
    cases stack with
    | nil =>
      exact ⟨g, rfl, hinv.1, hinv.2.1, hinv.2.2.1,
        floodInv_final A a b start hsw hsh g hinv⟩
    | cons c s =>
      obtain ⟨h1, h2, h3, h4, h5, h6, h7, h8⟩ := hinv
      have hcb := h4 c (List.mem_cons_self ..)
      have hcpaint := h5 c (List.mem_cons_self ..)
      have hreachc := (h6 c hcb.1 hcb.2 hcpaint).1
      have hneq : neighbors g.width g.height c =
          neighbors A.width A.height c := by rw [h1, h2]
      have hinv' := processNeighbors_inv A a b start hab hsw hsh c hcb.1
        hcb.2 (neighbors A.width A.height c) g s (fun d hd => hd)
        h1 h2 h3
        (fun e he => h4 e (List.mem_cons_of_mem _ he))
        (fun e he => h5 e (List.mem_cons_of_mem _ he))
        h6
        (fun e hew heh hep hes hec => h7 e hew heh hep
          (fun hmem => by
            rcases List.mem_cons.mp hmem with h | h
            · exact hec h
            · exact hes h))
        hcpaint
        (fun d hd _ => Or.inr hd)
        hreachc h8
      have hmeas := processNeighbors_measure a b (Ne.symm hab)
        (neighbors g.width g.height c) g s h3
        (neighbors_bounds (h1 ▸ hcb.1) (h2 ▸ hcb.2))
      show ∃ g', floodLoop a b n
        (processNeighbors a b (neighbors g.width g.height c) g s).1
        (processNeighbors a b (neighbors g.width g.height c) g s).2
          = some g' ∧ _
      rw [hneq]
      refine ih _ _ hinv' ?_
      rw [hneq] at hmeas
      simp only [List.length_cons] at hm
      omega

/-- `tryFloodFillAt` when the brush differs from the seed tile. -/
theorem tryFloodFill_changed {st : EditorState} {start : Nat × Nat}
    (hne : st.current.tilegrid.get start.1 start.2 ≠ st.brush) :
    tryFloodFillAt st start =
      (st.mutationBegin.withGrid
        ((floodLoop (st.current.tilegrid.get start.1 start.2) st.brush
          (st.current.tilegrid.width * st.current.tilegrid.height + 1)
          (st.current.tilegrid.set start.1 start.2 st.brush)
          [start]).getD
            (st.current.tilegrid.set start.1 start.2 st.brush)), true) := by
  unfold tryFloodFillAt
  rw [if_neg hne]
  rfl

/-- The initial state of the flood-fill loop (seed painted, seed on the
stack) satisfies the invariant. -/
theorem floodInv_init (A : TileGrid) (b : Option Tile)
    (hwf : A.subgrid.WF) (start : Nat × Nat)
    (hsw : start.1 < A.width) (hsh : start.2 < A.height)
    (hab : A.get start.1 start.2 ≠ b) :
    FloodInv A (A.get start.1 start.2) b start
      (A.set start.1 start.2 b) [start] := by
  set a := A.get start.1 start.2 with ha
  have hset : (A.set start.1 start.2 b).get start.1 start.2 = b :=
    TileGrid.set_get_self hwf hsw hsh
  have hne : ∀ e : Nat × Nat, e.1 < A.width → e ≠ start →
      (A.set start.1 start.2 b).get e.1 e.2 = A.get e.1 e.2 := by
    intro e hew hes
    exact TileGrid.set_get_ne hsw hew
      (fun h => hes (Prod.ext_iff.mpr ⟨h.1, h.2⟩))
  have hstartp : (A.set start.1 start.2 b).get start.1 start.2 ≠
      A.get start.1 start.2 := by
    rw [hset, ← ha]
    exact Ne.symm hab
  refine ⟨TileGrid.set_width .., TileGrid.set_height ..,
    TileGrid.set_wf hwf _ _ _, ?_, ?_, ?_, ?_, hstartp⟩
  · intro c hc
    rcases List.mem_singleton.mp hc with rfl
    exact ⟨hsw, hsh⟩
  · intro c hc
    rcases List.mem_singleton.mp hc with rfl
    exact hstartp
  · intro e hew heh hep
    by_cases hes : e = start
    · subst hes
      exact ⟨Reach.base, rfl, hset⟩
    · rw [hne e hew hes] at hep
      exact absurd rfl hep
  · intro e hew heh hep hes
    by_cases hes' : e = start
    · exact absurd (hes' ▸ List.mem_singleton.mpr rfl) hes
    · rw [hne e hew hes'] at hep
      exact absurd rfl hep

/-- **C4**: for every grid containing a 4-connected region `R` of cells
all holding the same tile, surrounded by cells holding different tiles,
and a brush different from the region's tile, flood fill started from any
cell of the region reports a change and repaints exactly the cells of `R`
with the brush, leaving every other cell unchanged. -/
theorem flood_fill_fills_region (st : EditorState) (start : Nat × Nat)
    (R : Finset (Nat × Nat))
    (hwf : st.current.tilegrid.subgrid.WF)
    (hRb : ∀ c ∈ R, c.1 < st.current.tilegrid.width ∧
      c.2 < st.current.tilegrid.height)
    (hstart : start ∈ R)
    (hunif : ∀ c ∈ R, st.current.tilegrid.get c.1 c.2 =
      st.current.tilegrid.get start.1 start.2)
    (hconn : ∀ c ∈ R, ReachWithin R st.current.tilegrid.width
      st.current.tilegrid.height start c)
    (hsurr : ∀ c ∈ R, ∀ d ∈ neighbors st.current.tilegrid.width
      st.current.tilegrid.height c, d ∉ R →
      st.current.tilegrid.get d.1 d.2 ≠
        st.current.tilegrid.get start.1 start.2)
    (hbrush : st.brush ≠ st.current.tilegrid.get start.1 start.2) :
    (tryFloodFillAt st start).2 = true ∧
    ∀ c r, c < st.current.tilegrid.width → r < st.current.tilegrid.height →
      (tryFloodFillAt st start).1.current.tilegrid.get c r =
        if (c, r) ∈ R then st.brush
        else st.current.tilegrid.get c r := by
  set A := st.current.tilegrid with hA
  set a := A.get start.1 start.2 with ha
  set b := st.brush with hb
  have hab : a ≠ b := Ne.symm hbrush
  have hsw := (hRb start hstart).1
  have hsh := (hRb start hstart).2
  have hiff : ∀ e : Nat × Nat, Reach A a start e ↔ e ∈ R := by
    intro e
    constructor
    · intro h
      induction h with
      | base => exact hstart
      | @step c' d' hr hmem hget ih =>
        by_contra hd
        exact hsurr c' ih d' hmem hd hget
    · intro he
      have hrw := hconn e he
      clear he
      induction hrw with
      | base => exact Reach.base
      | @step c' d' hr hmem hd ih =>
        exact Reach.step ih hmem (hunif d' hd)
  have hinit := floodInv_init A b hwf start hsw hsh hab
  have hmeas : countEq a (A.set start.1 start.2 b) + 1 ≤
      A.width * A.height + 1 := by
    have hlen : (A.set start.1 start.2 b).subgrid.grid.length =
        A.width * A.height := by
      unfold TileGrid.set SubGrid.set
      dsimp only
      rw [List.length_set]
      exact hwf
    have := List.countP_le_length
      (l := (A.set start.1 start.2 b).subgrid.grid)
      (p := fun v => decide (v = a))
    unfold countEq
    omega
  obtain ⟨g', heq, _, _, _, hchar⟩ :=
    floodLoop_correct A a b hab start hsw hsh (A.width * A.height + 1)
      (A.set start.1 start.2 b) [start] hinit (by simpa using hmeas)
  have hres := tryFloodFill_changed (Ne.symm hbrush)
  rw [hres]
  refine ⟨rfl, ?_⟩
  intro c r hc hr
  show ((floodLoop a b (A.width * A.height + 1)
    (A.set start.1 start.2 b) [start]).getD
      (A.set start.1 start.2 b)).get c r = _
  rw [heq]
  by_cases hm : (c, r) ∈ R
  · rw [if_pos hm]
    exact (hchar (c, r) hc hr).1 ((hiff (c, r)).mpr hm)
  · rw [if_neg hm]
    exact (hchar (c, r) hc hr).2 (fun h => hm ((hiff (c, r)).mp h))

/-- Witness for C4: filling the singleton region `{(0,0)}` of `exStateB`
repaints exactly that cell and leaves the far cell alone. -/
theorem flood_fill_fills_region_witness :
    (tryFloodFillAt exStateB (0, 0)).2 = true ∧
    (tryFloodFillAt exStateB (0, 0)).1.current.tilegrid.get 0 0 =
      some ⟨[97], 1⟩ ∧
    (tryFloodFillAt exStateB (0, 0)).1.current.tilegrid.get 1 0 = none := by
  have h := flood_fill_fills_region exStateB (0, 0) {(0, 0)} (by decide)
    (by decide) (by decide) (by decide)
    (fun c hc => by
      have hc' : c = (0, 0) := Finset.mem_singleton.mp hc
      subst hc'
      exact ReachWithin.base)
    (by decide) (by decide)
  exact ⟨h.1, (h.2 0 0 (by decide) (by decide)).trans (by decide),
    (h.2 1 0 (by decide) (by decide)).trans (by decide)⟩

/-! ## Undo/redo round-trip (claim C3) -/

/-- One mutating operation, unfolded. -/
theorem applyGridOp_eq (f : GridOp) (st : EditorState) :
    applyGridOp f st =
      { st with
        current := forwardSnap f st.current
        undo_stack := EditorState.pushSnap st.undo_stack st.current
        redo_stack := []
        persistent_mutation_active := false } := rfl

/-- Pushing onto a stack whose newest `m` entries are tracked keeps those
entries intact as long as `m` stays under the depth bound: the drop (if
any) eats the untracked older prefix. -/
theorem pushSnap_append (l m : List Snapshot) (s : Snapshot)
    (hm : m.length + 1 ≤ MAX_UNDOS) :
    ∃ l', EditorState.pushSnap (l ++ m) s = l' ++ (m ++ [s]) := by
  unfold EditorState.pushSnap
  by_cases h : MAX_UNDOS < ((l ++ m) ++ [s]).length
  · rw [if_pos h]
    cases l with
    | nil =>
      simp only [List.nil_append, List.length_append, List.length_singleton]
        at h
      omega
    | cons x xs =>
      refine ⟨xs, ?_⟩
      simp
  · rw [if_neg h]
    exact ⟨l, by simp⟩

theorem partialsOf_length (ops : List GridOp) :
    ∀ c, (partialsOf ops c).length = ops.length := by
  induction ops with
  | nil => intro c; rfl
  | cons f fs ih => intro c; simp [partialsOf, ih]

/-- The apply phase: the current snapshot advances by `forwardAll`, the
undo stack ends with the tracked partials followed by the pushed
pre-states, and (for a non-empty sequence) the redo stack is cleared. -/
theorem applyGridOps_spec :
    ∀ (ops : List GridOp) (st : EditorState) (pre partials : List Snapshot),
    st.undo_stack = pre ++ partials →
    partials.length + ops.length ≤ MAX_UNDOS →
    (applyGridOps ops st).current = forwardAll ops st.current ∧
    (∃ pre', (applyGridOps ops st).undo_stack =
      pre' ++ (partials ++ partialsOf ops st.current)) ∧
    (applyGridOps ops st).redo_stack =
      (if ops.isEmpty then st.redo_stack else []) := by
  intro ops
  induction ops with
  | nil =>
    intro st pre partials hstack _
    exact ⟨rfl, ⟨pre, by simpa [applyGridOps, partialsOf] using hstack⟩,
      by simp [applyGridOps]⟩
  | cons f fs ih =>
    intro st pre partials hstack hlen
    have hstep : (applyGridOp f st).undo_stack =
        EditorState.pushSnap (pre ++ partials) st.current := by
      rw [applyGridOp_eq, hstack]
    obtain ⟨pre1, hpre1⟩ := pushSnap_append pre partials st.current
      (by simp only [List.length_cons] at hlen; omega)
    have hstack1 : (applyGridOp f st).undo_stack =
        pre1 ++ (partials ++ [st.current]) := hstep.trans hpre1
    have hlen1 : (partials ++ [st.current]).length + fs.length ≤
        MAX_UNDOS := by
      simp only [List.length_append, List.length_nil,
        List.length_cons] at hlen ⊢
      omega
    have hcur1 : (applyGridOp f st).current = forwardSnap f st.current := by
      rw [applyGridOp_eq]
    obtain ⟨hcur, ⟨pre', hstack'⟩, hredo⟩ :=
      ih (applyGridOp f st) pre1 (partials ++ [st.current]) hstack1 hlen1
    refine ⟨?_, ⟨pre', ?_⟩, ?_⟩
    · show (applyGridOps fs (applyGridOp f st)).current = _
      rw [hcur, hcur1]
      rfl
    · show (applyGridOps fs (applyGridOp f st)).undo_stack = _
      rw [hstack', hcur1]
      simp [partialsOf]
    · show (applyGridOps fs (applyGridOp f st)).redo_stack = _
      rw [hredo]
      have h0 : (applyGridOp f st).redo_stack = [] := by rw [applyGridOp_eq]
      rw [h0]
      simp

theorem headD_append_singleton {α : Type} (l : List α) (a : α) (d : α) :
    (l ++ [a]).headD d = l.headD a := by
  cases l <;> rfl

theorem drop_one_append_singleton {α : Type} (l : List α) (a : α)
    (hl : l ≠ []) : (l ++ [a]).drop 1 = l.drop 1 ++ [a] := by
  cases l with
  | nil => exact absurd rfl hl
  | cons x xs => rfl

/-- The undo phase: with the undo stack ending in `snaps`, performing
`snaps.length` undos restores the oldest entry of `snaps` (or leaves the
state alone when `snaps` is empty), strips `snaps` from the undo stack,
and appends the undone snapshots, newest first, to the redo stack. -/
theorem undoN_spec :
    ∀ (snaps : List Snapshot) (st : EditorState) (pre : List Snapshot),
    st.undo_stack = pre ++ snaps →
    (EditorState.undoN snaps.length st).current = snaps.headD st.current ∧
    (EditorState.undoN snaps.length st).undo_stack = pre ∧
    (EditorState.undoN snaps.length st).redo_stack =
      st.redo_stack ++ ((snaps ++ [st.current]).drop 1).reverse := by
  intro snaps
  induction snaps using List.reverseRecOn with
  | nil =>
    intro st pre hstack
    refine ⟨rfl, ?_, ?_⟩
    · show st.undo_stack = pre
      simpa using hstack
    · show st.redo_stack = _
      simp
  | append_singleton init a ih =>
    intro st pre hstack
    have hstack' : st.undo_stack = (pre ++ init) ++ [a] := by
      rw [hstack, List.append_assoc]
    have hlast : st.undo_stack.getLast? = some a := by
      rw [hstack']
      exact List.getLast?_concat _
    have hundo : (st.undo).1 =
        { st with
          current := a
          undo_stack := pre ++ init
          redo_stack := st.redo_stack ++ [st.current]
          tool := if a.selection.isSome then Tool.Select else st.tool } := by
      unfold EditorState.undo
      rw [hlast]
      simp only [hstack']
      rw [List.dropLast_concat]
    have hlen : (init ++ [a]).length = init.length + 1 := by simp
    rw [hlen]
    have hstep : EditorState.undoN (init.length + 1) st =
        EditorState.undoN init.length (st.undo).1 := rfl
    rw [hstep]
    obtain ⟨hc, hu, hr⟩ := ih (st.undo).1 pre (by rw [hundo])
    have hcur' : (st.undo).1.current = a := by rw [hundo]
    have hredo' : (st.undo).1.redo_stack =
        st.redo_stack ++ [st.current] := by rw [hundo]
    refine ⟨?_, hu, ?_⟩
    · rw [hc, hcur', headD_append_singleton]
    · rw [hr, hcur', hredo',
        drop_one_append_singleton (init ++ [a]) st.current (by simp)]
      simp

/-- The redo phase (mirror of `undoN_spec`). -/
theorem redoN_spec :
    ∀ (snaps : List Snapshot) (st : EditorState) (pre : List Snapshot),
    st.redo_stack = pre ++ snaps →
    (EditorState.redoN snaps.length st).current = snaps.headD st.current ∧
    (EditorState.redoN snaps.length st).redo_stack = pre ∧
    (EditorState.redoN snaps.length st).undo_stack =
      st.undo_stack ++ ((snaps ++ [st.current]).drop 1).reverse := by
  intro snaps
  induction snaps using List.reverseRecOn with
  | nil =>
    intro st pre hstack
    refine ⟨rfl, ?_, ?_⟩
    · show st.redo_stack = pre
      simpa using hstack
    · show st.undo_stack = _
      simp
  | append_singleton init a ih =>
    intro st pre hstack
    have hstack' : st.redo_stack = (pre ++ init) ++ [a] := by
      rw [hstack, List.append_assoc]
    have hlast : st.redo_stack.getLast? = some a := by
      rw [hstack']
      exact List.getLast?_concat _
    have hredo : (st.redo).1 =
        { st with
          current := a
          redo_stack := pre ++ init
          undo_stack := st.undo_stack ++ [st.current]
          tool := if a.selection.isSome then Tool.Select else st.tool } := by
      unfold EditorState.redo
      rw [hlast]
      simp only [hstack']
      rw [List.dropLast_concat]
    have hlen : (init ++ [a]).length = init.length + 1 := by simp
    rw [hlen]
    have hstep : EditorState.redoN (init.length + 1) st =
        EditorState.redoN init.length (st.redo).1 := rfl
    rw [hstep]
    obtain ⟨hc, hu, hr⟩ := ih (st.redo).1 pre (by rw [hredo])
    have hcur' : (st.redo).1.current = a := by rw [hredo]
    have hundo' : (st.redo).1.undo_stack =
        st.undo_stack ++ [st.current] := by rw [hredo]
    refine ⟨?_, hu, ?_⟩
    · rw [hc, hcur', headD_append_singleton]
    · rw [hr, hcur', hundo',
        drop_one_append_singleton (init ++ [a]) st.current (by simp)]
      simp

/-- **C3 (amended)**: for every initial editor state and every sequence
of at most `MAX_UNDOS` (100) mutating operations, performing as many
consecutive `undo()` calls restores the initial snapshot (grid and
selection), and performing as many consecutive `redo()` calls afterwards
restores the snapshot reached after the mutations.  (Beyond 100
operations the bounded history drops the oldest snapshots and the
round-trip fails: `undo_101_counterexample`.) -/
theorem undo_redo_roundtrip (ops : List GridOp) (st : EditorState)
    (hlen : ops.length ≤ MAX_UNDOS) :
    (EditorState.undoN ops.length (applyGridOps ops st)).current =
      st.current ∧
    (EditorState.redoN ops.length
      (EditorState.undoN ops.length (applyGridOps ops st))).current =
      (applyGridOps ops st).current := by
  cases hops : ops with
  | nil => exact ⟨rfl, rfl⟩
  | cons f fs =>
    rw [← hops]
    obtain ⟨hcur, ⟨pre', hstack⟩, hredo⟩ := applyGridOps_spec ops st
      st.undo_stack [] (by simp) (by simpa using hlen)
    have hplen := partialsOf_length ops st.current
    obtain ⟨hc, hu, hr⟩ := undoN_spec (partialsOf ops st.current)
      (applyGridOps ops st) pre' (by simpa using hstack)
    rw [hplen] at hc hu hr
    have hfirst : (partialsOf ops st.current).headD
        (applyGridOps ops st).current = st.current := by
      rw [hops]
      rfl
    refine ⟨hc.trans hfirst, ?_⟩
    have hredoN : (applyGridOps ops st).redo_stack = [] := by
      rw [hredo, hops]
      rfl
    have hrs : (EditorState.undoN ops.length
        (applyGridOps ops st)).redo_stack =
        [] ++ ((partialsOf ops st.current ++
          [(applyGridOps ops st).current]).drop 1).reverse := by
      rw [hr, hredoN]
    obtain ⟨hc2, _, _⟩ := redoN_spec
      (((partialsOf ops st.current ++
        [(applyGridOps ops st).current]).drop 1).reverse)
      (EditorState.undoN ops.length (applyGridOps ops st)) [] hrs
    have hrlen : (((partialsOf ops st.current ++
        [(applyGridOps ops st).current]).drop 1).reverse).length =
        ops.length := by
      simp [hplen]
    rw [hrlen] at hc2
    have hh : ∀ (z c0 d : Snapshot) (rest : List Snapshot),
        (((c0 :: rest) ++ [z]).drop 1).reverse.headD d = z := by
      intro z c0 d rest
      rw [List.cons_append]
      show ((rest ++ [z]).reverse).headD d = z
      rw [List.reverse_append]
      rfl
    have hpart : partialsOf ops st.current =
        st.current :: partialsOf fs (forwardSnap f st.current) := by
      rw [hops]
      rfl
    refine hc2.trans ?_
    rw [hpart]
    exact hh _ _ _ _

set_option maxRecDepth 100000 in
/-- Counterexample to C3 as stated (for arbitrary `N`): after 101
mutating operations on a fresh state the bounded undo stack (depth 100)
has dropped the initial snapshot, so 101 undos do not restore the
initial background color. -/
theorem undo_101_counterexample :
    (EditorState.undoN 101
      (applyGridOps exOps101 exState)).current.tilegrid.background_color ≠
      exState.current.tilegrid.background_color := by
  decide

/-- Witness for the amended C3 at a concrete one-operation sequence. -/
theorem undo_redo_roundtrip_witness :
    (EditorState.undoN 1 (applyGridOps
      [fun p => ({ p.1 with background_color := (0, 0, 0) }, p.2)]
      exState)).current = exState.current ∧
    (EditorState.redoN 1 (EditorState.undoN 1 (applyGridOps
      [fun p => ({ p.1 with background_color := (0, 0, 0) }, p.2)]
      exState))).current =
      (applyGridOps
        [fun p => ({ p.1 with background_color := (0, 0, 0) }, p.2)]
        exState).current :=
  undo_redo_roundtrip
    [fun p => ({ p.1 with background_color := (0, 0, 0) }, p.2)]
    exState (by decide)

/-! ## Cut and paste (claim C2) -/

theorem nodup_range' (s n : Nat) : (List.range' s n).Nodup := by
  induction n generalizing s with
  | zero => exact List.nodup_nil
  | succ m ih =>
    rw [List.range'_succ]
    refine List.nodup_cons.mpr ⟨?_, ih (s + 1)⟩
    intro hm
    have := List.mem_range'_1.mp hm
    omega

theorem clearFold_width (l : List (Nat × Nat)) (g : TileGrid) :
    (l.foldl (fun (gg : TileGrid) c => gg.set c.1 c.2 none) g).width =
      g.width := by
  induction l generalizing g with
  | nil => rfl
  | cons d rest ih => exact (ih _).trans rfl

theorem clearFold_height (l : List (Nat × Nat)) (g : TileGrid) :
    (l.foldl (fun (gg : TileGrid) c => gg.set c.1 c.2 none) g).height =
      g.height := by
  induction l generalizing g with
  | nil => rfl
  | cons d rest ih => exact (ih _).trans rfl

theorem clearFold_wf (l : List (Nat × Nat)) {g : TileGrid}
    (hwf : g.subgrid.WF) :
    (l.foldl (fun (gg : TileGrid) c => gg.set c.1 c.2 none) g).subgrid.WF := by
  induction l generalizing g with
  | nil => exact hwf
  | cons d rest ih => exact ih (TileGrid.set_wf hwf _ _ _)

theorem clearFold_get (l : List (Nat × Nat)) {g : TileGrid}
    (hwf : g.subgrid.WF) (hnd : l.Nodup)
    (hin : ∀ d ∈ l, d.1 < g.width ∧ d.2 < g.height)
    {c r : Nat} (hc : c < g.width) (hr : r < g.height) :
    (l.foldl (fun (gg : TileGrid) c => gg.set c.1 c.2 none) g).get c r =
      if (c, r) ∈ l then none else g.get c r := by
  induction l generalizing g with
  | nil => simp
  | cons d rest ih =>
    have hd := hin d (List.mem_cons_self ..)
    rw [List.foldl_cons,
      ih (TileGrid.set_wf hwf _ _ _) hnd.of_cons
        (fun e he => hin e (List.mem_cons_of_mem _ he)) hc hr]
    by_cases hm : (c, r) = d
    · have hnotrest : (c, r) ∉ rest :=
        fun h => (List.nodup_cons.mp hnd).1 (hm ▸ h)
      rw [if_neg hnotrest, if_pos (hm ▸ List.mem_cons_self ..)]
      have hcd : c = d.1 ∧ r = d.2 := ⟨by rw [← hm], by rw [← hm]⟩
      rw [hcd.1, hcd.2]
      exact TileGrid.set_get_self hwf hd.1 hd.2
    · have hg : (g.set d.1 d.2 none).get c r = g.get c r :=
        TileGrid.set_get_ne hd.1 hc
          (fun h => hm (Prod.ext_iff.mpr ⟨h.1, h.2⟩))
      rw [hg]
      by_cases hm2 : (c, r) ∈ rest
      · rw [if_pos hm2, if_pos (List.mem_cons_of_mem _ hm2)]
      · rw [if_neg hm2, if_neg (by simp [List.mem_cons, hm, hm2])]

/-- The single read-and-clear pass of the cut loop equals the collected
original cells (in reverse) paired with the clear-only fold. -/
theorem cutFold_spec :
    ∀ (coords : List (Nat × Nat)) (g : TileGrid) (acc : List (Option Tile)),
    coords.Nodup → (∀ d ∈ coords, d.1 < g.width ∧ d.2 < g.height) →
    coords.foldl cutStep (acc, g) =
      ((coords.map fun c => g.get c.1 c.2).reverse ++ acc,
       coords.foldl (fun (gg : TileGrid) c => gg.set c.1 c.2 none) g) := by
  intro coords
  induction coords with
  | nil => intro g acc _ _; simp
  | cons d rest ih =>
    intro g acc hnd hin
    have hd := hin d (List.mem_cons_self ..)
    have hstep : cutStep (acc, g) d =
        (g.get d.1 d.2 :: acc, g.set d.1 d.2 none) := rfl
    rw [List.foldl_cons, hstep,
      ih (g.set d.1 d.2 none) (g.get d.1 d.2 :: acc) hnd.of_cons
        (fun e he => hin e (List.mem_cons_of_mem _ he))]
    have hmap : rest.map (fun c => (g.set d.1 d.2 none).get c.1 c.2) =
        rest.map (fun c => g.get c.1 c.2) := by
      refine List.map_congr_left ?_
      intro e he
      exact TileGrid.set_get_ne hd.1 (hin e (List.mem_cons_of_mem _ he)).1
        (fun h => (List.nodup_cons.mp hnd).1
          (by
            have : e = d := Prod.ext_iff.mpr ⟨h.1, h.2⟩
            rwa [← this]))
    rw [hmap]
    simp

/-- Reading the row-major collected cells of a clipped region back by
linear index recovers the original cell. -/
theorem coordCells_getD (f : Nat × Nat → Option Tile) :
    ∀ (ch ny j : Nat), j < ch → ∀ (cw nx i : Nat), i < cw →
    ((TileGrid.coordList (List.range' nx cw) (List.range' ny ch)).map
      f).getD (j * cw + i) none = f (nx + i, ny + j) := by
  intro ch
  induction ch with
  | zero => intro ny j hj; omega
  | succ m ih =>
    intro ny j hj cw nx i hi
    rw [List.range'_succ]
    have hsplit : TileGrid.coordList (List.range' nx cw)
        (ny :: List.range' (ny + 1) m) =
        ((List.range' nx cw).map fun c => (c, ny)) ++
          TileGrid.coordList (List.range' nx cw)
            (List.range' (ny + 1) m) := by
      unfold TileGrid.coordList
      rw [List.flatMap_cons]
    rw [hsplit, List.map_append, List.map_map]
    cases j with
    | zero =>
      have hlen : i < (((List.range' nx cw).map
          (f ∘ fun c => (c, ny)))).length := by
        simpa using hi
      rw [Nat.zero_mul, Nat.zero_add, List.getD_append _ _ _ _ hlen,
        List.getD_eq_getElem _ _ hlen]
      rw [List.getElem_map, List.getElem_range']
      show f (nx + 1 * i, ny) = f (nx + i, ny)
      rw [Nat.one_mul]
    | succ k =>
      have hlen : (((List.range' nx cw).map
          (f ∘ fun c => (c, ny)))).length = cw := by simp
      have hge : (((List.range' nx cw).map
          (f ∘ fun c => (c, ny)))).length ≤ (k + 1) * cw + i := by
        rw [hlen]
        calc cw ≤ (k + 1) * cw := Nat.le_mul_of_pos_left _ (Nat.succ_pos k)
        _ ≤ (k + 1) * cw + i := Nat.le_add_right _ _
      rw [List.getD_append_right _ _ _ _ hge, hlen]
      have hidx : (k + 1) * cw + i - cw = k * cw + i := by
        have : (k + 1) * cw = k * cw + cw := by ring
        omega
      rw [hidx]
      have h' := ih (ny + 1) k (by omega) cw nx i hi
      rwa [show ny + 1 + k = ny + (k + 1) from by omega] at h'

theorem pasteFold_width (sg : SubGrid) (a b c d : Nat)
    (l : List (Nat × Nat)) (g : TileGrid) :
    (l.foldl (pasteStep sg a b c d) g).width = g.width := by
  induction l generalizing g with
  | nil => rfl
  | cons e rest ih =>
    rw [List.foldl_cons]
    refine (ih _).trans ?_
    unfold pasteStep
    split
    · rfl
    · rfl

theorem pasteFold_height (sg : SubGrid) (a b c d : Nat)
    (l : List (Nat × Nat)) (g : TileGrid) :
    (l.foldl (pasteStep sg a b c d) g).height = g.height := by
  induction l generalizing g with
  | nil => rfl
  | cons e rest ih =>
    rw [List.foldl_cons]
    refine (ih _).trans ?_
    unfold pasteStep
    split
    · rfl
    · rfl

theorem pasteFold_wf (sg : SubGrid) (a b c d : Nat)
    (l : List (Nat × Nat)) {g : TileGrid} (hwf : g.subgrid.WF) :
    (l.foldl (pasteStep sg a b c d) g).subgrid.WF := by
  induction l generalizing g with
  | nil => exact hwf
  | cons e rest ih =>
    rw [List.foldl_cons]
    refine ih ?_
    unfold pasteStep
    split
    · exact TileGrid.set_wf hwf _ _ _
    · exact hwf

theorem pasteStep_get_other (sg : SubGrid) (a b dc dr : Nat)
    {g : TileGrid} (e : Nat × Nat) (hdb : dc + e.1 < g.width)
    {c r : Nat} (hc : c < g.width)
    (hne : ¬(dc + e.1 = c ∧ dr + e.2 = r)) :
    (pasteStep sg a b dc dr g e).get c r = g.get c r := by
  unfold pasteStep
  split
  · exact TileGrid.set_get_ne hdb hc (fun h => hne ⟨h.1.symm, h.2.symm⟩)
  · rfl

/-- The paste fold leaves every cell outside the written rectangle
alone. -/
theorem pasteFold_get_untouched (sg : SubGrid) (a b dc dr : Nat) :
    ∀ (l : List (Nat × Nat)) (g : TileGrid),
    (∀ d ∈ l, dc + d.1 < g.width) →
    ∀ c r, c < g.width →
    (∀ d ∈ l, ¬(dc + d.1 = c ∧ dr + d.2 = r)) →
    (l.foldl (pasteStep sg a b dc dr) g).get c r = g.get c r := by
  intro l
  induction l with
  | nil => intro g _ c r _ _; rfl
  | cons e rest ih =>
    intro g hin c r hc hne
    rw [List.foldl_cons]
    have hw : (pasteStep sg a b dc dr g e).width = g.width := by
      unfold pasteStep
      split
      · rfl
      · rfl
    rw [ih _ (fun d hd => hw ▸ hin d (List.mem_cons_of_mem _ hd)) c r
      (hw ▸ hc) (fun d hd => hne d (List.mem_cons_of_mem _ hd))]
    exact pasteStep_get_other sg a b dc dr e
      (hin e (List.mem_cons_self ..)) hc (hne e (List.mem_cons_self ..))

/-- The paste fold writes each listed destination cell from its source
cell (when the source is non-empty). -/
theorem pasteFold_get_write (sg : SubGrid) (a b dc dr : Nat) :
    ∀ (l : List (Nat × Nat)) (g : TileGrid), g.subgrid.WF →
    (∀ d ∈ l, dc + d.1 < g.width ∧ dr + d.2 < g.height) →
    l.Nodup →
    ∀ d ∈ l, (l.foldl (pasteStep sg a b dc dr) g).get (dc + d.1)
        (dr + d.2) =
      match sg.get (a + d.1) (b + d.2) with
      | some t => some t
      | none => g.get (dc + d.1) (dr + d.2) := by
  intro l
  induction l with
  | nil => intro g _ _ _ d hd; exact absurd hd (List.not_mem_nil _)
  | cons e rest ih =>
    intro g hwf hin hnd d hd
    have he := hin e (List.mem_cons_self ..)
    have hw : (pasteStep sg a b dc dr g e).width = g.width := by
      unfold pasteStep
      split
      · rfl
      · rfl
    have hh : (pasteStep sg a b dc dr g e).height = g.height := by
      unfold pasteStep
      split
      · rfl
      · rfl
    have hwf1 : (pasteStep sg a b dc dr g e).subgrid.WF := by
      unfold pasteStep
      split
      · exact TileGrid.set_wf hwf _ _ _
      · exact hwf
    rcases List.mem_cons.mp hd with rfl | hd'
    · rw [List.foldl_cons]
      rw [pasteFold_get_untouched sg a b dc dr rest _
        (fun d' hd' => hw ▸ (hin d' (List.mem_cons_of_mem _ hd')).1)
        (dc + d.1) (dr + d.2) (hw ▸ he.1)
        (fun d' hd' h => (List.nodup_cons.mp hnd).1
          (by
            have : d' = d := Prod.ext_iff.mpr ⟨by omega, by omega⟩
            rwa [← this]))]
      unfold pasteStep
      split
      · exact TileGrid.set_get_self hwf he.1 he.2
      · rfl
    · rw [List.foldl_cons]
      have hde : d ≠ e :=
        fun h => (List.nodup_cons.mp hnd).1 (h ▸ hd')
      have hstep : (pasteStep sg a b dc dr g e).get (dc + d.1)
          (dr + d.2) = g.get (dc + d.1) (dr + d.2) :=
        pasteStep_get_other sg a b dc dr e he.1
          (hin d (List.mem_cons_of_mem _ hd')).1
          (fun h => hde (Prod.ext_iff.mpr ⟨by omega, by omega⟩))
      rw [ih _ hwf1
        (fun d' hd'' => ⟨hw ▸ (hin d' (List.mem_cons_of_mem _ hd'')).1,
          hh ▸ (hin d' (List.mem_cons_of_mem _ hd'')).2⟩)
        hnd.of_cons d hd']
      split
      · rfl
      · exact hstep

set_option maxRecDepth 10000 in
/-- Counterexample to C2 as stated: for the rectangle with top-left
`(-10, 0)` and size `15×1` on a 3×2 grid with a tile at `(0,0)`, the cut
clips to columns `0..3` and clears them, but the paste anchors the
returned `SubGrid` at column `-10`, clips it away entirely, and restores
nothing: cell `(0,0)` loses its tile. -/
theorem cut_paste_counterexample :
    ((exGrid3x2.cut_subgrid ⟨-10, 0, 15, 1⟩).2.paste_subgrid
      (exGrid3x2.cut_subgrid ⟨-10, 0, 15, 1⟩).1
      (Rect.top_left ⟨-10, 0, 15, 1⟩)).get 0 0 ≠ exGrid3x2.get 0 0 := by
  decide

theorem coordList_nil_left (rows : List Nat) :
    TileGrid.coordList ([] : List Nat) rows = [] := by
  unfold TileGrid.coordList
  simp

/-- **C2 (amended)**: for every well-formed grid and every rectangle
whose top-left corner has non-negative coordinates (with the coordinate
clamps guaranteed by the `sdl2` `Rect` constructor), `cut_subgrid(R)`
followed immediately by `paste_subgrid` of the returned `SubGrid` at
`R`'s top-left restores every cell of the grid; a rectangle lying fully
beyond the right or bottom edge cuts no cells and leaves the grid
unchanged.  (For a rectangle extending left or above the grid the pair
does **not** restore the grid: `cut_paste_counterexample`.) -/
theorem cut_paste_restores_nonneg (g : TileGrid) (rect : Rect)
    (hwf : g.subgrid.WF)
    (hx : 0 ≤ rect.x) (hy : 0 ≤ rect.y)
    (hxb : rect.x ≤ 2 ^ 30) (hyb : rect.y ≤ 2 ^ 30)
    (hwb : rect.w ≤ 2 ^ 30) (hhb : rect.h ≤ 2 ^ 30)
    (hWb : g.width ≤ 2 ^ 30) (hHb : g.height ≤ 2 ^ 30) :
    (((g.width : Int) ≤ rect.x ∨ (g.height : Int) ≤ rect.y) →
      (g.cut_subgrid rect).1.grid = [] ∧ (g.cut_subgrid rect).2 = g) ∧
    ∀ c r, c < g.width → r < g.height →
      ((g.cut_subgrid rect).2.paste_subgrid (g.cut_subgrid rect).1
        rect.top_left).get c r = g.get c r := by
  have hnx : asU32 (max 0 rect.left) = rect.x.toNat := by
    unfold asU32 Rect.left
    omega
  have hec : asU32 (min (g.width : Int) rect.right) =
      min g.width (rect.x.toNat + rect.w) := by
    unfold asU32 Rect.right
    omega
  have hny : asU32 (max 0 rect.top) = rect.y.toNat := by
    unfold asU32 Rect.top
    omega
  have her : asU32 (min (g.height : Int) rect.bottom) =
      min g.height (rect.y.toNat + rect.h) := by
    unfold asU32 Rect.bottom
    omega
  have hcut : g.cut_subgrid rect =
      (⟨wsub32 (min g.width (rect.x.toNat + rect.w)) rect.x.toNat,
        wsub32 (min g.height (rect.y.toNat + rect.h)) rect.y.toNat,
        ((TileGrid.coordList
          (List.range' rect.x.toNat
            (min g.width (rect.x.toNat + rect.w) - rect.x.toNat))
          (List.range' rect.y.toNat
            (min g.height (rect.y.toNat + rect.h) - rect.y.toNat))).foldl
          cutStep ([], g)).1.reverse⟩,
       ((TileGrid.coordList
          (List.range' rect.x.toNat
            (min g.width (rect.x.toNat + rect.w) - rect.x.toNat))
          (List.range' rect.y.toNat
            (min g.height (rect.y.toNat + rect.h) - rect.y.toNat))).foldl
          cutStep ([], g)).2) := by
    simp only [TileGrid.cut_subgrid]
    rw [hnx, hec, hny, her]
  set nx := rect.x.toNat with hnxdef
  set ny := rect.y.toNat with hnydef
  set ec := min g.width (nx + rect.w) with hecdef
  set er := min g.height (ny + rect.h) with herdef
  set coords := TileGrid.coordList (List.range' nx (ec - nx))
    (List.range' ny (er - ny)) with hcoordsdef
  have hnodup : coords.Nodup :=
    coordList_nodup (nodup_range' nx (ec - nx)) (nodup_range' ny (er - ny))
  have hinb : ∀ d ∈ coords, d.1 < g.width ∧ d.2 < g.height := by
    intro d hd
    have hm := mem_coordList.mp (show (d.1, d.2) ∈ _ from hd)
    have h1 := List.mem_range'_1.mp hm.1
    have h2 := List.mem_range'_1.mp hm.2
    constructor <;> omega
  have hfold := cutFold_spec coords g [] hnodup hinb
  have hsg1 : (g.cut_subgrid rect).1 =
      ⟨wsub32 ec nx, wsub32 er ny,
        coords.map fun c => g.get c.1 c.2⟩ := by
    rw [hcut]
    show (⟨wsub32 ec nx, wsub32 er ny,
      ((coords.foldl cutStep ([], g)).1).reverse⟩ : SubGrid) = _
    rw [hfold]
    simp
  have hsg2 : (g.cut_subgrid rect).2 =
      coords.foldl (fun (gg : TileGrid) c => gg.set c.1 c.2 none) g := by
    rw [hcut]
    show (coords.foldl cutStep ([], g)).2 = _
    rw [hfold]
  have hg2w : (g.cut_subgrid rect).2.width = g.width := by
    rw [hsg2]
    exact clearFold_width ..
  have hg2h : (g.cut_subgrid rect).2.height = g.height := by
    rw [hsg2]
    exact clearFold_height ..
  have hg2wf : (g.cut_subgrid rect).2.subgrid.WF := by
    rw [hsg2]
    exact clearFold_wf _ hwf
  -- the paste parameters
  have hsrcC : asU32 (max 0 (-(rect.top_left).1)) = 0 := by
    unfold asU32 Rect.top_left
    omega
  have hsrcR : asU32 (max 0 (-(rect.top_left).2)) = 0 := by
    unfold asU32 Rect.top_left
    omega
  have hdstC : asU32 (max 0 (rect.top_left).1) = nx := by
    unfold asU32 Rect.top_left
    omega
  have hdstR : asU32 (max 0 (rect.top_left).2) = ny := by
    unfold asU32 Rect.top_left
    omega
  have hpaste : (g.cut_subgrid rect).2.paste_subgrid (g.cut_subgrid rect).1
      rect.top_left =
      (TileGrid.coordList
        (List.range (min (wsub32 ec nx - 0) (g.width - min nx g.width)))
        (List.range (min (wsub32 er ny - 0)
          (g.height - min ny g.height)))).foldl
        (pasteStep (g.cut_subgrid rect).1 0 0 (min nx g.width)
          (min ny g.height)) (g.cut_subgrid rect).2 := by
    simp only [TileGrid.paste_subgrid]
    rw [hsrcC, hsrcR, hdstC, hdstR, hg2w, hg2h]
    rw [show ((g.cut_subgrid rect).1).width = wsub32 ec nx from by
      rw [hsg1]]
    rw [show ((g.cut_subgrid rect).1).height = wsub32 er ny from by
      rw [hsg1]]
    rw [Nat.zero_min, Nat.zero_min]
  rcases Nat.lt_or_ge nx g.width with hnxW | hnxW
  case _ =>
    rcases Nat.lt_or_ge ny g.height with hnyH | hnyH
    case _ =>
      -- main case: the clipped region is genuine
      have hecge : nx ≤ ec := by omega
      have hecle : ec ≤ g.width := Nat.min_le_left _ _
      have herge : ny ≤ er := by omega
      have herle : er ≤ g.height := Nat.min_le_left _ _
      have hsgw : wsub32 ec nx = ec - nx := by
        unfold wsub32
        omega
      have hsgh : wsub32 er ny = er - ny := by
        unfold wsub32
        omega
      have hdc : min nx g.width = nx := Nat.min_eq_left (by omega)
      have hdr : min ny g.height = ny := Nat.min_eq_left (by omega)
      have hnumc : min (wsub32 ec nx - 0) (g.width - min nx g.width) =
          ec - nx := by
        rw [hsgw, hdc]
        omega
      have hnumr : min (wsub32 er ny - 0) (g.height - min ny g.height) =
          er - ny := by
        rw [hsgh, hdr]
        omega
      rw [hnumc, hnumr, hdc, hdr] at hpaste
      constructor
      · intro hdeg
        exfalso
        omega
      · intro c r hc hr
        rw [hpaste]
        have hplnd : (TileGrid.coordList (List.range (ec - nx))
            (List.range (er - ny))).Nodup :=
          coordList_nodup (List.nodup_range _) (List.nodup_range _)
        have hplb : ∀ d ∈ TileGrid.coordList (List.range (ec - nx))
            (List.range (er - ny)),
            nx + d.1 < (g.cut_subgrid rect).2.width ∧
            ny + d.2 < (g.cut_subgrid rect).2.height := by
          intro d hd
          have hm := mem_coordList.mp (show (d.1, d.2) ∈ _ from hd)
          simp only [List.mem_range] at hm
          rw [hg2w, hg2h]
          constructor <;> omega
        by_cases hreg : nx ≤ c ∧ c < ec ∧ ny ≤ r ∧ r < er
        · -- inside the clipped region
          have hd : ((c - nx, r - ny) : Nat × Nat) ∈
              TileGrid.coordList (List.range (ec - nx))
                (List.range (er - ny)) := by
            rw [mem_coordList]
            simp only [List.mem_range]
            constructor <;> omega
          have hwr := pasteFold_get_write (g.cut_subgrid rect).1 0 0 nx ny
            (TileGrid.coordList (List.range (ec - nx))
              (List.range (er - ny)))
            (g.cut_subgrid rect).2 hg2wf hplb hplnd (c - nx, r - ny) hd
          rw [show nx + (c - nx, r - ny).1 = c from by omega,
            show ny + (c - nx, r - ny).2 = r from by omega] at hwr
          rw [hwr]
          have hsgget : (g.cut_subgrid rect).1.get (0 + (c - nx, r - ny).1)
              (0 + (c - nx, r - ny).2) = g.get c r := by
            rw [hsg1]
            unfold SubGrid.get
            show (List.map (fun c => g.get c.1 c.2) coords).getD
              ((0 + (r - ny)) * wsub32 ec nx + (0 + (c - nx))) none = _
            rw [hsgw, hcoordsdef]
            rw [show (0 + (r - ny)) = r - ny from by omega,
              show (0 + (c - nx)) = c - nx from by omega]
            rw [coordCells_getD (fun c => g.get c.1 c.2) (er - ny) ny
              (r - ny) (by omega) (ec - nx) nx (c - nx) (by omega)]
            show g.get (nx + (c - nx)) (ny + (r - ny)) = g.get c r
            rw [show nx + (c - nx) = c from by omega,
              show ny + (r - ny) = r from by omega]
          rw [hsgget]
          cases hgc : g.get c r with
          | some t => rfl
          | none =>
            show (g.cut_subgrid rect).2.get c r = none
            rw [hsg2, clearFold_get coords hwf hnodup hinb hc hr]
            rw [if_pos (by
              rw [hcoordsdef, mem_coordList]
              constructor <;> (rw [List.mem_range'_1]; omega))]
        · -- outside the clipped region
          rw [pasteFold_get_untouched (g.cut_subgrid rect).1 0 0 nx ny _ _
            (fun d hd => (hplb d hd).1) c r (hg2w ▸ hc)
            (fun d hd h => by
              have hm := mem_coordList.mp (show (d.1, d.2) ∈ _ from hd)
              simp only [List.mem_range] at hm
              exact hreg ⟨by omega, by omega, by omega, by omega⟩)]
          rw [hsg2, clearFold_get coords hwf hnodup hinb hc hr]
          rw [if_neg (by
            rw [hcoordsdef, mem_coordList]
            intro hmm
            have h1 := List.mem_range'_1.mp hmm.1
            have h2 := List.mem_range'_1.mp hmm.2
            exact hreg ⟨by omega, by omega, by omega, by omega⟩)]
    case _ =>
      -- degenerate: the rect lies fully below the grid
      have hch : er - ny = 0 := by omega
      have hcoordsnil : coords = [] := by
        rw [hcoordsdef, hch]
        rfl
      have hdr : min ny g.height = g.height := Nat.min_eq_right (by omega)
      have hnumr : min (wsub32 er ny - 0) (g.height - min ny g.height) =
          0 := by
        rw [hdr]
        omega
      rw [hnumr] at hpaste
      have hplnil : TileGrid.coordList
          (List.range (min (wsub32 ec nx - 0)
            (g.width - min nx g.width))) (List.range 0) = [] := rfl
      rw [hplnil] at hpaste
      constructor
      · intro _
        constructor
        · rw [hsg1, hcoordsnil]
          rfl
        · rw [hsg2, hcoordsnil]
          rfl
      · intro c r hc hr
        rw [hpaste]
        show (g.cut_subgrid rect).2.get c r = g.get c r
        rw [hsg2, hcoordsnil]
        rfl
  case _ =>
    -- degenerate: the rect lies fully right of the grid
    have hcw : ec - nx = 0 := by omega
    have hcoordsnil : coords = [] := by
      rw [hcoordsdef, hcw]
      exact coordList_nil_left _
    have hdc : min nx g.width = g.width := Nat.min_eq_right (by omega)
    have hnumc : min (wsub32 ec nx - 0) (g.width - min nx g.width) = 0 := by
      rw [hdc]
      omega
    rw [hnumc] at hpaste
    have hplnil : TileGrid.coordList (List.range 0)
        (List.range (min (wsub32 er ny - 0)
          (g.height - min ny g.height))) = [] :=
      coordList_nil_left _
    rw [hplnil] at hpaste
    constructor
    · intro _
      constructor
      · rw [hsg1, hcoordsnil]
        rfl
      · rw [hsg2, hcoordsnil]
        rfl
    · intro c r hc hr
      rw [hpaste]
      show (g.cut_subgrid rect).2.get c r = g.get c r
      rw [hsg2, hcoordsnil]
      rfl

/-- Witness for the amended C2: an in-range rectangle on `exGrid3x2`. -/
theorem cut_paste_restores_witness :
    ((exGrid3x2.cut_subgrid ⟨1, 0, 2, 2⟩).2.paste_subgrid
        (exGrid3x2.cut_subgrid ⟨1, 0, 2, 2⟩).1
        (Rect.top_left ⟨1, 0, 2, 2⟩)).get 1 0 = exGrid3x2.get 1 0 ∧
    ((exGrid3x2.cut_subgrid ⟨1, 0, 2, 2⟩).2.paste_subgrid
        (exGrid3x2.cut_subgrid ⟨1, 0, 2, 2⟩).1
        (Rect.top_left ⟨1, 0, 2, 2⟩)).get 2 1 = exGrid3x2.get 2 1 :=
  ⟨(cut_paste_restores_nonneg exGrid3x2 ⟨1, 0, 2, 2⟩ (by decide)
    (by decide) (by decide) (by decide) (by decide) (by decide) (by decide)
    (by decide) (by decide)).2 1 0 (by decide) (by decide),
   (cut_paste_restores_nonneg exGrid3x2 ⟨1, 0, 2, 2⟩ (by decide)
    (by decide) (by decide) (by decide) (by decide) (by decide) (by decide)
    (by decide) (by decide)).2 2 1 (by decide) (by decide)⟩

/-! ## Malformed files and failed loads (claim C8) -/

/-- **C8**: loading a malformed grid file — a malformed header, an
out-of-base64-alphabet tile byte, a tile reference not present in the
declared tileset, or a row with more populated columns than the declared
width — returns a data-format error; and whenever a pending `LoadFile`
fails, the editor state (grid, stacks, mode, path, brush) is left
untouched apart from consuming the dispatch flag, while a successful load
fully replaces the grid. -/
theorem load_errors_leave_state_untouched :
    isErr (TileGrid.load exDisk exBadHeader) = true ∧
    isErr (TileGrid.load exDisk exBadTileByte) = true ∧
    isErr (TileGrid.load exDisk exUndeclaredTile) = true ∧
    isErr (TileGrid.load exDisk exTooManyCols) = true ∧
    (∀ (fs : List Byte → Option (List Byte)) (disk : Disk)
      (st : EditorState) (path : List Byte),
      st.mode = .LoadFile path → st.should_mode_perform = true →
      isErr (TileGrid.load_from_path fs disk path) = true →
      modePerformIfNecessary fs disk st =
        ({ st with should_mode_perform := false }, false)) ∧
    (∀ (fs : List Byte → Option (List Byte)) (disk : Disk)
      (st : EditorState) (path : List Byte) (tg : TileGrid),
      st.mode = .LoadFile path → st.should_mode_perform = true →
      TileGrid.load_from_path fs disk path = .ok tg →
      (modePerformIfNecessary fs disk st).1.current.tilegrid = tg ∧
      (modePerformIfNecessary fs disk st).2 = true) := by
  refine ⟨by decide, by decide, by decide, by decide, ?_, ?_⟩
  · intro fs disk st path hmode hperf herr
    unfold modePerformIfNecessary
    rw [if_neg (by simp [hperf])]
    rw [show ({ st with should_mode_perform := false } :
      EditorState).mode = Mode.LoadFile path from hmode]
    dsimp only
    cases hload : TileGrid.load_from_path fs disk path with
    | ok tg =>
      rw [hload] at herr
      exact absurd herr (by simp [isErr])
    | error e => simp [hload]
  · intro fs disk st path tg hmode hperf hok
    unfold modePerformIfNecessary
    rw [if_neg (by simp [hperf])]
    rw [show ({ st with should_mode_perform := false } :
      EditorState).mode = Mode.LoadFile path from hmode]
    dsimp only
    rw [hok]
    exact ⟨rfl, rfl⟩

/-- Witness for C8 at a concrete state whose pending load fails (missing
file). -/
theorem load_errors_witness :
    isErr (TileGrid.load exDisk exBadHeader) = true ∧
    modePerformIfNecessary (fun _ => none) exDisk exStateLoad =
      ({ exStateLoad with should_mode_perform := false }, false) := by
  have h := load_errors_leave_state_untouched
  exact ⟨h.1, h.2.2.2.2.1 (fun _ => none) exDisk exStateLoad [99]
    (by decide) (by decide) (by decide)⟩

/-! ## Save/load round trip (claim C1) -/

theorem readExactly_consume (pat rest : List Byte) :
    readExactly pat (pat ++ rest) = .ok rest := by
  unfold readExactly
  rw [if_pos ⟨by simp, by rw [List.take_left]⟩, List.drop_left]

theorem readIntAux_append (xs : List Byte) (b : Byte)
    (hb : isDigitByte b = false) (rest : List Byte) :
    ∀ (v out : Nat), readIntAux v xs = .ok (out, 0, []) →
      (∀ x ∈ xs, isDigitByte x = true) →
      readIntAux v (xs ++ b :: rest) = .ok (out, b, rest) := by
  induction xs with
  | nil =>
    intro v out hout _
    unfold readIntAux at hout
    simp only [Except.ok.injEq, Prod.mk.injEq, and_true] at hout
    subst hout
    simp only [List.nil_append]
    unfold readIntAux
    simp [hb]
  | cons x xs ih =>
    intro v out hout hdig
    have hx : isDigitByte x = true := hdig x (List.mem_cons_self ..)
    simp only [List.cons_append]
    unfold readIntAux at hout ⊢
    rw [hx] at hout ⊢
    simp only [if_true] at hout ⊢
    by_cases h255 : v * 10 + (x - 48) > 255
    · rw [if_pos h255] at hout
      exact absurd hout (by simp)
    · rw [if_neg h255] at hout ⊢
      exact ih _ _ hout fun y hy => hdig y (List.mem_cons_of_mem _ hy)

set_option maxRecDepth 10000 in
/-- Decimal renderings of byte values parse back exactly (checked for all
256 values). -/
theorem decBytes_spec : ∀ n, n < 256 →
    readIntAux 0 (decBytes n) = .ok (n, 0, []) ∧
      ∀ x ∈ decBytes n, isDigitByte x = true := by decide

/-- The base64 encoding round-trips, and never produces a newline or a
space (checked for all 64 indices). -/
theorem b64_spec : ∀ i, i < 64 →
    base64_to_index (index_to_base64 i) = .ok i ∧
      index_to_base64 i ≠ 10 ∧ index_to_base64 i ≠ 32 := by decide

theorem readInt_decBytes (n b : Nat) (hn : n < 256)
    (hb : isDigitByte b = false) (rest : List Byte) :
    readInt (decBytes n ++ b :: rest) = .ok (n, b, rest) :=
  readIntAux_append (decBytes n) b hb rest 0 n (decBytes_spec n hn).1
    (decBytes_spec n hn).2

theorem readIntWith_decBytes (n t : Nat) (hn : n < 256)
    (ht : isDigitByte t = false) (rest : List Byte) :
    readIntWith t (decBytes n ++ t :: rest) = .ok (n, rest) := by
  unfold readIntWith
  rw [readInt_decBytes n t hn ht rest]
  show (if t = t then Except.ok (n, rest)
    else Except.error "unexpected char in header") = Except.ok (n, rest)
  rw [if_pos rfl]

theorem readString_exact (f : List Byte) (hf : (10 : Byte) ∉ f)
    (tl : List Byte) : readString 10 (f ++ 10 :: tl) = (f, tl) := by
  induction f with
  | nil =>
    simp only [List.nil_append]
    unfold readString
    rw [if_pos rfl]
  | cons b f ih =>
    have hb : b ≠ 10 := fun h => hf (h ▸ List.mem_cons_self ..)
    simp only [List.cons_append]
    unfold readString
    rw [if_neg hb, ih fun h => hf (List.mem_cons_of_mem _ h)]

theorem nameBytes_length (names : List Filename) :
    names.length ≤ (nameBytes names).length := by
  induction names with
  | nil => simp [nameBytes]
  | cons f rest ih =>
    simp only [nameBytes, List.flatMap_cons, List.length_append,
      List.length_cons] at *
    omega

theorem readFilenamesAux_names (names : List Filename)
    (hnn : ∀ f ∈ names, (10 : Byte) ∉ f) :
    ∀ (fuel : Nat) (tl : List Byte), names.length + 1 ≤ fuel →
      readFilenamesAux fuel (nameBytes names ++ 10 :: tl) =
        .ok (names, tl, false) := by
  induction names with
  | nil =>
    intro fuel tl hfuel
    obtain ⟨m, rfl⟩ : ∃ m, fuel = m + 1 := ⟨fuel - 1, by omega⟩
    show readFilenamesAux (m + 1) (10 :: tl) = _
    unfold readFilenamesAux
    rw [if_neg (by decide), if_pos rfl]
  | cons f rest ih =>
    intro fuel tl hfuel
    obtain ⟨m, rfl⟩ : ∃ m, fuel = m + 1 := ⟨fuel - 1, by omega⟩
    have hbytes : nameBytes (f :: rest) ++ 10 :: tl =
        62 :: (f ++ 10 :: (nameBytes rest ++ 10 :: tl)) := by
      simp [nameBytes, List.flatMap_cons, List.append_assoc]
    rw [hbytes]
    unfold readFilenamesAux
    rw [if_pos rfl,
      readString_exact f (hnn f (List.mem_cons_self ..)) _]
    dsimp only
    rw [ih (fun g hg => hnn g (List.mem_cons_of_mem _ hg)) m _
      (by simp only [List.length_cons] at hfuel; omega)]

theorem readFilenamesAux_eof (names : List Filename)
    (hnn : ∀ f ∈ names, (10 : Byte) ∉ f) :
    ∀ fuel : Nat, names.length ≤ fuel →
      readFilenamesAux fuel (nameBytes names) = .ok (names, [], true) := by
  induction names with
  | nil =>
    intro fuel _
    show readFilenamesAux fuel [] = _
    cases fuel <;> rfl
  | cons f rest ih =>
    intro fuel hfuel
    obtain ⟨m, rfl⟩ : ∃ m, fuel = m + 1 :=
      ⟨fuel - 1, by simp only [List.length_cons] at hfuel; omega⟩
    have hbytes : nameBytes (f :: rest) =
        62 :: (f ++ 10 :: nameBytes rest) := by
      simp [nameBytes, List.flatMap_cons, List.append_assoc]
    rw [hbytes]
    unfold readFilenamesAux
    rw [if_pos rfl,
      readString_exact f (hnn f (List.mem_cons_self ..)) _]
    dsimp only
    rw [ih (fun g hg => hnn g (List.mem_cons_of_mem _ hg)) m
      (by simp only [List.length_cons] at hfuel; omega)]

theorem filenameMapGet_not_mem (f : Filename) :
    ∀ (names : List Filename), f ∉ names → ∀ i,
      filenameMapGet i names f = none := by
  intro names
  induction names with
  | nil => intro _ i; rfl
  | cons n rest ih =>
    intro hf i
    unfold filenameMapGet
    rw [ih (fun h => hf (List.mem_cons_of_mem _ h)) (i + 1)]
    dsimp only
    rw [if_neg (show ¬(n = f) from fun h => hf (by
      rw [← h]; exact List.mem_cons_self ..))]

theorem filenameMapGet_mem (f : Filename) :
    ∀ (names : List Filename), names.Nodup → f ∈ names → ∀ i₀,
      ∃ j, filenameMapGet i₀ names f = some (i₀ + j) ∧ j < names.length ∧
        names[j]? = some f := by
  intro names
  induction names with
  | nil => intro _ h; exact absurd h (List.not_mem_nil f)
  | cons n rest ih =>
    intro hnd hf i₀
    by_cases hfr : f ∈ rest
    · obtain ⟨j, hj, hjlt, hjget⟩ := ih hnd.of_cons hfr (i₀ + 1)
      refine ⟨j + 1, ?_, by simp only [List.length_cons]; omega,
        by simpa using hjget⟩
      unfold filenameMapGet
      rw [hj]
      dsimp only
      congr 1
      omega
    · have hfn : f = n := by
        rcases List.mem_cons.mp hf with h | h
        · exact h
        · exact absurd h hfr
      refine ⟨0, ?_, by simp, by simp [hfn]⟩
      unfold filenameMapGet
      rw [filenameMapGet_not_mem f rest hfr (i₀ + 1)]
      dsimp only
      rw [if_pos hfn.symm]
      simp

/-- A valid occupied cell resolves through the saved filename map and the
tileset back to the very same tile. -/
theorem tileset_resolve (ts : Tileset) (hnd : ts.filenames.Nodup)
    (t : Tile) (hmem : ∃ p ∈ ts.tiles, p.1 = t.filename ∧ t.index < p.2) :
    ∃ j, filenameMapGet 0 ts.filenames t.filename = some j ∧
      j < ts.tiles.length ∧ ts.get j t.index = some t := by
  obtain ⟨p, hp, hpf, hpi⟩ := hmem
  have hfmem : t.filename ∈ ts.filenames := by
    rw [← hpf]
    exact List.mem_map_of_mem Prod.fst hp
  obtain ⟨j, hj, hjlt, hjget⟩ :=
    filenameMapGet_mem t.filename ts.filenames hnd hfmem 0
  have hjlt' : j < ts.tiles.length := by
    simpa [Tileset.filenames] using hjlt
  refine ⟨j, by simpa using hj, hjlt', ?_⟩
  have hq : ts.filenames[j]? = some (ts.tiles.get ⟨j, hjlt'⟩).1 := by
    simp [Tileset.filenames, List.getElem?_map,
      List.getElem?_eq_getElem hjlt', List.get_eq_getElem]
  rw [hjget] at hq
  have hfst : (ts.tiles.get ⟨j, hjlt'⟩).1 = t.filename :=
    (Option.some.inj hq).symm
  have hnd' : (ts.tiles.map Prod.fst).Nodup := hnd
  have hpq : ts.tiles.get ⟨j, hjlt'⟩ = p :=
    List.inj_on_of_nodup_map hnd'
      (by rw [List.get_eq_getElem]; exact List.getElem_mem _) hp
      (by rw [hfst, hpf])
  unfold Tileset.get
  rw [List.get?_eq_getElem?, List.getElem?_eq_getElem hjlt',
    ← List.get_eq_getElem ts.tiles ⟨j, hjlt'⟩, hpq]
  obtain ⟨pf, pn⟩ := p
  dsimp only
  have hpf' : pf = t.filename := hpf
  have hpi' : t.index < pn := hpi
  rw [if_pos hpi', hpf']

theorem updateRow_width (row : Nat) :
    ∀ (cells : List (Option Tile)) (j : Nat) (sg : SubGrid),
      (updateRow row sg j cells).width = sg.width := by
  intro cells
  induction cells with
  | nil => intro j sg; rfl
  | cons cell cells ih =>
    intro j sg
    cases cell with
    | none => exact ih (j + 1) sg
    | some t => exact (ih (j + 1) (sg.set j row (some t))).trans rfl

theorem updateRow_height (row : Nat) :
    ∀ (cells : List (Option Tile)) (j : Nat) (sg : SubGrid),
      (updateRow row sg j cells).height = sg.height := by
  intro cells
  induction cells with
  | nil => intro j sg; rfl
  | cons cell cells ih =>
    intro j sg
    cases cell with
    | none => exact ih (j + 1) sg
    | some t => exact (ih (j + 1) (sg.set j row (some t))).trans rfl

theorem updateRow_wf (row : Nat) :
    ∀ (cells : List (Option Tile)) (j : Nat) {sg : SubGrid}, sg.WF →
      (updateRow row sg j cells).WF := by
  intro cells
  induction cells with
  | nil => intro j sg hwf; exact hwf
  | cons cell cells ih =>
    intro j sg hwf
    cases cell with
    | none => exact ih (j + 1) hwf
    | some t => exact ih (j + 1) (SubGrid.wf_set hwf _ _ _)

theorem updateRow_get_miss (row : Nat) :
    ∀ (cells : List (Option Tile)) (j : Nat) (sg : SubGrid) (c r : Nat),
      j + cells.length ≤ sg.width → c < sg.width →
      (c < j ∨ r ≠ row) →
      (updateRow row sg j cells).get c r = sg.get c r := by
  intro cells
  induction cells with
  | nil => intro j sg c r _ _ _; rfl
  | cons cell cells ih =>
    intro j sg c r hbound hc hmiss
    have hbound' : (j + 1) + cells.length ≤ sg.width := by
      simp only [List.length_cons] at hbound
      omega
    have hmiss' : c < j + 1 ∨ r ≠ row := by
      rcases hmiss with h | h
      · exact Or.inl (Nat.lt_succ_of_lt h)
      · exact Or.inr h
    cases cell with
    | none =>
      show (updateRow row sg (j + 1) cells).get c r = _
      exact ih (j + 1) sg c r hbound' hc hmiss'
    | some t =>
      show (updateRow row (sg.set j row (some t)) (j + 1) cells).get c r = _
      rw [ih (j + 1) (sg.set j row (some t)) c r hbound' hc hmiss']
      exact SubGrid.get_set_ne (by omega) hc fun h => by
        rcases hmiss with hlt | hne
        · omega
        · exact hne h.2

theorem updateRow_get_from (row : Nat) :
    ∀ (cells : List (Option Tile)) (j : Nat) (sg : SubGrid) (c : Nat),
      sg.WF → row < sg.height → j + cells.length ≤ sg.width →
      c < sg.width → j ≤ c →
      (updateRow row sg j cells).get c row =
        (cells.getD (c - j) none).or (sg.get c row) := by
  intro cells
  induction cells with
  | nil =>
    intro j sg c _ _ _ _ _
    show sg.get c row = (List.getD [] (c - j) none).or (sg.get c row)
    simp [List.getD]
  | cons cell cells ih =>
    intro j sg c hwf hrow hbound hc hjc
    have hbound' : (j + 1) + cells.length ≤ sg.width := by
      simp only [List.length_cons] at hbound
      omega
    rcases Nat.eq_or_lt_of_le hjc with rfl | hlt
    · cases cell with
      | none =>
        show (updateRow row sg (j + 1) cells).get j row = _
        rw [updateRow_get_miss row cells (j + 1) sg j row hbound' hc
          (Or.inl (Nat.lt_succ_self j))]
        simp
      | some t =>
        show (updateRow row (sg.set j row (some t)) (j + 1) cells).get j row
          = _
        rw [updateRow_get_miss row cells (j + 1) (sg.set j row (some t)) j
          row hbound' hc (Or.inl (Nat.lt_succ_self j))]
        rw [SubGrid.get_set_self hwf (by omega) hrow]
        simp
    · have hcj : c - j = (c - (j + 1)) + 1 := by omega
      cases cell with
      | none =>
        show (updateRow row sg (j + 1) cells).get c row = _
        rw [ih (j + 1) sg c hwf hrow hbound' hc hlt, hcj,
          List.getD_cons_succ]
      | some t =>
        show (updateRow row (sg.set j row (some t)) (j + 1) cells).get c row
          = _
        rw [ih (j + 1) (sg.set j row (some t)) c (SubGrid.wf_set hwf _ _ _)
          hrow hbound' hc hlt]
        rw [SubGrid.get_set_ne (by omega) hc fun h => by omega, hcj,
          List.getD_cons_succ]

theorem updateRows_width :
    ∀ (rowsC : List (List (Option Tile))) (r0 : Nat) (sg : SubGrid),
      (updateRows sg r0 rowsC).width = sg.width := by
  intro rowsC
  induction rowsC with
  | nil => intro r0 sg; rfl
  | cons cs rest ih =>
    intro r0 sg
    exact (ih (r0 + 1) (updateRow r0 sg 0 cs)).trans
      (updateRow_width r0 cs 0 sg)

theorem updateRows_height :
    ∀ (rowsC : List (List (Option Tile))) (r0 : Nat) (sg : SubGrid),
      (updateRows sg r0 rowsC).height = sg.height := by
  intro rowsC
  induction rowsC with
  | nil => intro r0 sg; rfl
  | cons cs rest ih =>
    intro r0 sg
    exact (ih (r0 + 1) (updateRow r0 sg 0 cs)).trans
      (updateRow_height r0 cs 0 sg)

theorem updateRows_wf :
    ∀ (rowsC : List (List (Option Tile))) (r0 : Nat) {sg : SubGrid},
      sg.WF → (updateRows sg r0 rowsC).WF := by
  intro rowsC
  induction rowsC with
  | nil => intro r0 sg hwf; exact hwf
  | cons cs rest ih =>
    intro r0 sg hwf
    exact ih (r0 + 1) (updateRow_wf r0 cs 0 hwf)

theorem updateRows_get :
    ∀ (rowsC : List (List (Option Tile))) (r0 : Nat) (sg : SubGrid)
      (c r : Nat), sg.WF → (∀ cs ∈ rowsC, cs.length ≤ sg.width) →
      r0 + rowsC.length ≤ sg.height → c < sg.width → r < sg.height →
      (updateRows sg r0 rowsC).get c r =
        if r0 ≤ r ∧ r < r0 + rowsC.length then
          ((rowsC.getD (r - r0) []).getD c none).or (sg.get c r)
        else sg.get c r := by
  intro rowsC
  induction rowsC with
  | nil =>
    intro r0 sg c r _ _ _ _ _
    rw [if_neg (by simp only [List.length_nil]; omega)]
    rfl
  | cons cs rest ih =>
    intro r0 sg c r hwf hrl hbound hc hr
    have hcs : cs.length ≤ sg.width := hrl cs (List.mem_cons_self ..)
    have hwf' : (updateRow r0 sg 0 cs).WF := updateRow_wf r0 cs 0 hwf
    have hbound' : (r0 + 1) + rest.length ≤ sg.height := by
      simp only [List.length_cons] at hbound
      omega
    show (updateRows (updateRow r0 sg 0 cs) (r0 + 1) rest).get c r = _
    rw [ih (r0 + 1) (updateRow r0 sg 0 cs) c r hwf'
      (fun cs' h => le_trans (hrl cs' (List.mem_cons_of_mem _ h))
        (le_of_eq (updateRow_width r0 cs 0 sg).symm))
      (by rw [updateRow_height]; exact hbound')
      (by rw [updateRow_width]; exact hc)
      (by rw [updateRow_height]; exact hr)]
    by_cases hrr : r = r0
    · subst hrr
      rw [if_neg (by omega), if_pos (by simp only [List.length_cons]; omega)]
      rw [updateRow_get_from r cs 0 sg c hwf (by omega) (by omega) hc
        (Nat.zero_le c)]
      simp
    · have hmiss : (updateRow r0 sg 0 cs).get c r = sg.get c r :=
        updateRow_get_miss r0 cs 0 sg c r (by omega) hc (Or.inr hrr)
      by_cases hin : r0 + 1 ≤ r ∧ r < r0 + 1 + rest.length
      · rw [if_pos hin, if_pos (by simp only [List.length_cons]; omega)]
        rw [hmiss]
        have hidx : r - r0 = (r - (r0 + 1)) + 1 := by omega
        rw [hidx, List.getD_cons_succ]
      · rw [if_neg hin, if_neg (by simp only [List.length_cons]; omega)]
        exact hmiss

theorem loadRow_newline (ts : Tileset) (width row c : Nat) (sg : SubGrid)
    (rest : List Byte) :
    loadRow ts width row c sg (10 :: rest) = .ok (sg, rest, false) := by
  unfold loadRow
  rw [if_pos rfl]

theorem loadRow_space_step (ts : Tileset) (width row c : Nat) (sg : SubGrid)
    (rest' : List Byte) (hc : c < width) :
    loadRow ts width row c sg (32 :: 32 :: rest') =
      loadRow ts width row (c + 1) sg rest' := by
  simp only [loadRow]
  rw [if_neg (Nat.not_le.mpr hc)]
  simp

theorem loadRow_tile_step (ts : Tileset) (width row c : Nat) (sg : SubGrid)
    (t : Tile) (fi ti : Nat) (b1 b2 : Byte) (rest' : List Byte)
    (hc : c < width) (hb1 : ¬b1 = 10) (hb12 : ¬(b1 = 32 ∧ b2 = 32))
    (hdec1 : base64_to_index b1 = .ok fi)
    (hdec2 : base64_to_index b2 = .ok ti)
    (hget : ts.get fi ti = some t) :
    loadRow ts width row c sg (b1 :: b2 :: rest') =
      loadRow ts width row (c + 1) (sg.set c row (some t)) rest' := by
  simp only [loadRow]
  rw [if_neg hb1, if_neg (Nat.not_le.mpr hc)]
  rw [if_neg hb12, hdec1, hdec2]
  dsimp only
  rw [hget]

theorem loadRow_spaces (ts : Tileset) (width row : Nat) :
    ∀ (k c : Nat) (sg : SubGrid) (tail : List Byte), c + k ≤ width →
      loadRow ts width row c sg (List.replicate (2 * k) 32 ++ tail) =
        loadRow ts width row (c + k) sg tail := by
  intro k
  induction k with
  | zero => intro c sg tail _; rfl
  | succ k ih =>
    intro c sg tail hk
    have h1 : List.replicate (2 * (k + 1)) (32 : Byte) =
        32 :: 32 :: List.replicate (2 * k) 32 := by
      rw [show 2 * (k + 1) = ((2 * k) + 1) + 1 from by omega,
        List.replicate_succ, List.replicate_succ]
    rw [h1]
    simp only [List.cons_append]
    rw [loadRow_space_step ts width row c sg _ (by omega),
      ih (c + 1) sg tail (by omega),
      show c + 1 + k = c + (k + 1) from by omega]

theorem loadRow_encode (ts : Tileset) (hnd : ts.filenames.Nodup)
    (h64 : ts.tiles.length ≤ 64) (width row : Nat) :
    ∀ (cells : List (Option Tile)) (spaces c : Nat) (sg : SubGrid)
      (rest : List Byte),
      c + spaces + cells.length ≤ width →
      (∀ cell ∈ cells, ∀ t ∈ cell,
        t.index < 64 ∧ ∃ p ∈ ts.tiles, p.1 = t.filename ∧ t.index < p.2) →
      loadRow ts width row c sg
          (encodeRowAux ts.filenames cells spaces ++ 10 :: rest) =
        .ok (updateRow row sg (c + spaces) cells, rest, false) := by
  intro cells
  induction cells with
  | nil =>
    intro spaces c sg rest _ _
    exact loadRow_newline ts width row c sg rest
  | cons cell cells ih =>
    intro spaces c sg rest hb hcv
    cases cell with
    | none =>
      show loadRow ts width row c sg
          (encodeRowAux ts.filenames cells (spaces + 1) ++ 10 :: rest) = _
      rw [ih (spaces + 1) c sg rest
        (by simp only [List.length_cons] at hb; omega)
        fun x hx => hcv x (List.mem_cons_of_mem _ hx)]
      rfl
    | some t =>
      obtain ⟨hti64, hmem⟩ :=
        hcv (some t) (List.mem_cons_self ..) t (Option.mem_def.mpr rfl)
      obtain ⟨j, hj, hjlt, hget⟩ := tileset_resolve ts hnd t hmem
      have hj64 : j < 64 := lt_of_lt_of_le hjlt h64
      simp only [encodeRowAux, hj, Option.getD_some, List.append_assoc,
        List.cons_append, List.nil_append]
      have hlen : c + spaces + (cells.length + 1) ≤ width := by
        simpa only [List.length_cons] using hb
      rw [loadRow_spaces ts width row spaces c sg _ (by omega),
        loadRow_tile_step ts width row (c + spaces) sg t j t.index _ _ _
          (by omega) (b64_spec j hj64).2.1
          (fun h => (b64_spec j hj64).2.2 h.1)
          (b64_spec j hj64).1 (b64_spec t.index hti64).1 hget,
        ih 0 (c + spaces + 1) (sg.set (c + spaces) row (some t)) rest
          (by omega) fun x hx => hcv x (List.mem_cons_of_mem _ hx)]
      rfl

theorem loadRows_encode (ts : Tileset) (hnd : ts.filenames.Nodup)
    (h64 : ts.tiles.length ≤ 64) (width : Nat) :
    ∀ (rowsC : List (List (Option Tile))) (n r0 : Nat) (sg : SubGrid),
      rowsC.length ≤ n →
      (∀ cs ∈ rowsC, cs.length ≤ width ∧ ∀ cell ∈ cs, ∀ t ∈ cell,
        t.index < 64 ∧ ∃ p ∈ ts.tiles, p.1 = t.filename ∧ t.index < p.2) →
      loadRows ts width n r0 sg
          (rowsC.flatMap fun cs => encodeRowAux ts.filenames cs 0 ++ [10]) =
        .ok (updateRows sg r0 rowsC) := by
  intro rowsC
  induction rowsC with
  | nil =>
    intro n r0 sg _ _
    show loadRows ts width n r0 sg [] = .ok sg
    cases n with
    | zero => rfl
    | succ m => rfl
  | cons cs rest ih =>
    intro n r0 sg hn hok
    obtain ⟨m, rfl⟩ : ∃ m, n = m + 1 :=
      ⟨n - 1, by simp only [List.length_cons] at hn; omega⟩
    simp only [List.flatMap_cons, List.append_assoc, List.cons_append,
      List.nil_append]
    unfold loadRows
    rw [loadRow_encode ts hnd h64 width r0 cs 0 0 sg _
      (by simpa using (hok cs (List.mem_cons_self ..)).1)
      (hok cs (List.mem_cons_self ..)).2]
    dsimp only
    rw [if_neg (by decide)]
    rw [ih m (r0 + 1) (updateRow r0 sg 0 cs)
      (by simp only [List.length_cons] at hn; omega)
      fun cs' h => hok cs' (List.mem_cons_of_mem _ h)]
    rfl

theorem readFilenames_names (names : List Filename)
    (hnn : ∀ f ∈ names, (10 : Byte) ∉ f) (tl : List Byte) :
    readFilenames (nameBytes names ++ 10 :: tl) = .ok (names, tl, false) :=
  readFilenamesAux_names names hnn _ tl (by
    have := nameBytes_length names
    simp only [List.length_append, List.length_cons]
    omega)

theorem readFilenames_eof (names : List Filename)
    (hnn : ∀ f ∈ names, (10 : Byte) ∉ f) :
    readFilenames (nameBytes names) = .ok (names, [], true) :=
  readFilenamesAux_eof names hnn _ (nameBytes_length names)

theorem encodeRowAux_isEmpty (names : List Filename) :
    ∀ (cells : List (Option Tile)) (spaces : Nat),
      (encodeRowAux names cells spaces).isEmpty = cells.all Option.isNone := by
  intro cells
  induction cells with
  | nil => intro spaces; rfl
  | cons cell cells ih =>
    intro spaces
    cases cell with
    | none =>
      show (encodeRowAux names cells (spaces + 1)).isEmpty = _
      rw [ih (spaces + 1)]
      simp
    | some t =>
      simp only [encodeRowAux]
      simp

theorem trimTrailing_map_enc (names : List Filename)
    (rcs : List (List (Option Tile))) :
    trimTrailing (rcs.map fun cs => encodeRowAux names cs 0) =
      (trimCells rcs).map fun cs => encodeRowAux names cs 0 := by
  unfold trimTrailing trimCells
  rw [← List.map_reverse, List.dropWhile_map, ← List.map_reverse]
  have hp : ((fun l : List Byte => l.isEmpty) ∘
      fun cs => encodeRowAux names cs 0) =
      fun cs : List (Option Tile) => cs.all Option.isNone := by
    funext cs
    simp only [Function.comp_apply]
    exact encodeRowAux_isEmpty names cs 0
  rw [hp]

theorem trimCells_decomp (rcs : List (List (Option Tile))) :
    ∃ dropped, rcs = trimCells rcs ++ dropped ∧
      ∀ cs ∈ dropped, cs.all Option.isNone = true := by
  refine ⟨(rcs.reverse.takeWhile fun cs => cs.all Option.isNone).reverse,
    ?_, ?_⟩
  · unfold trimCells
    calc rcs = rcs.reverse.reverse := (List.reverse_reverse rcs).symm
    _ = ((rcs.reverse.takeWhile fun cs => cs.all Option.isNone) ++
          rcs.reverse.dropWhile fun cs => cs.all Option.isNone).reverse := by
        rw [List.takeWhile_append_dropWhile]
    _ = _ := by rw [List.reverse_append]
  · intro cs hcs
    rw [List.mem_reverse] at hcs
    exact List.mem_takeWhile_imp
      (p := fun cs : List (Option Tile) => cs.all Option.isNone) hcs

theorem trimCells_length (rcs : List (List (Option Tile))) :
    (trimCells rcs).length ≤ rcs.length := by
  unfold trimCells
  rw [List.length_reverse]
  exact le_trans ((List.dropWhile_sublist _).length_le)
    (le_of_eq (List.length_reverse _))

theorem trimCells_mem {rcs : List (List (Option Tile))}
    {cs : List (Option Tile)} (h : cs ∈ trimCells rcs) : cs ∈ rcs := by
  unfold trimCells at h
  rw [List.mem_reverse] at h
  rw [← List.mem_reverse]
  exact (List.dropWhile_sublist _).mem h

theorem rowCells_length (g : TileGrid) (rr : Nat) :
    (g.rowCells rr).length = g.width := by
  simp [TileGrid.rowCells]

theorem rowCells_getD (g : TileGrid) (rr : Nat) {c : Nat}
    (hc : c < g.width) : (g.rowCells rr).getD c none = g.get c rr := by
  unfold TileGrid.rowCells
  rw [List.getD_eq_getElem?_getD, List.getElem?_map, List.getElem?_range hc]
  rfl

theorem mem_rowCells {g : TileGrid} {rr : Nat} {cell : Option Tile}
    (h : cell ∈ g.rowCells rr) : ∃ c, c < g.width ∧ cell = g.get c rr := by
  unfold TileGrid.rowCells at h
  obtain ⟨c, hc, rfl⟩ := List.mem_map.mp h
  exact ⟨c, List.mem_range.mp hc, rfl⟩

theorem rowCellsList_length (g : TileGrid) :
    (rowCellsList g).length = g.height := by
  simp [rowCellsList]

theorem rowCellsList_getD (g : TileGrid) {r : Nat} (hr : r < g.height) :
    (rowCellsList g).getD r [] = g.rowCells r := by
  unfold rowCellsList
  rw [List.getD_eq_getElem?_getD, List.getElem?_map, List.getElem?_range hr]
  rfl

theorem rowCellsList_mem {g : TileGrid} {cs : List (Option Tile)}
    (h : cs ∈ rowCellsList g) : ∃ rr, rr < g.height ∧ cs = g.rowCells rr := by
  unfold rowCellsList at h
  obtain ⟨rr, hrr, rfl⟩ := List.mem_map.mp h
  exact ⟨rr, List.mem_range.mp hrr, rfl⟩

theorem get_mem_grid {g : TileGrid} (hwf : g.subgrid.WF) {c r : Nat}
    (hc : c < g.width) (hr : r < g.height) :
    g.get c r ∈ g.subgrid.grid := by
  show g.subgrid.get c r ∈ _
  rw [SubGrid.get_eq_getElem hwf hc hr, List.get_eq_getElem]
  exact List.getElem_mem _

/-- The parsed (trimmed) row section writes back exactly the grid's own
cells: trailing all-empty rows were never written and stay empty in the
fresh buffer. -/
theorem trimmed_rows_get (g : TileGrid) (hwf : g.subgrid.WF) (c r : Nat)
    (hc : c < g.width) (hr : r < g.height) :
    (updateRows (SubGrid.new g.width g.height) 0
        (trimCells (rowCellsList g))).get c r = g.get c r := by
  obtain ⟨dropped, hdec, hdrop⟩ := trimCells_decomp (rowCellsList g)
  have hlen : (trimCells (rowCellsList g)).length + dropped.length
      = g.height := by
    have h1 := congrArg List.length hdec
    rw [List.length_append, rowCellsList_length] at h1
    omega
  rw [updateRows_get (trimCells (rowCellsList g)) 0
    (SubGrid.new g.width g.height) c r (SubGrid.wf_new _ _)
    (fun cs hcs => by
      obtain ⟨rr, _, rfl⟩ := rowCellsList_mem (trimCells_mem hcs)
      exact le_of_eq (rowCells_length g rr))
    (by rw [SubGrid.new_height]; omega) hc hr]
  by_cases hrk : r < (trimCells (rowCellsList g)).length
  · rw [if_pos ⟨Nat.zero_le r, by omega⟩]
    have h1 : (trimCells (rowCellsList g)).getD (r - 0) [] =
        g.rowCells r := by
      have h2 : (rowCellsList g).getD r [] =
          (trimCells (rowCellsList g)).getD r [] := by
        conv_lhs => rw [hdec]
        exact List.getD_append _ _ _ _ hrk
      rw [show r - 0 = r from rfl, ← h2, rowCellsList_getD g hr]
    rw [h1, rowCells_getD g r hc, SubGrid.get_new, Option.or_none]
  · rw [if_neg (by omega), SubGrid.get_new]
    have hall : (g.rowCells r).all Option.isNone = true := by
      have h2 : (rowCellsList g).getD r [] =
          dropped.getD (r - (trimCells (rowCellsList g)).length) [] := by
        conv_lhs => rw [hdec]
        exact List.getD_append_right _ _ _ _ (by omega)
      have hmemd : dropped.getD
          (r - (trimCells (rowCellsList g)).length) [] ∈ dropped := by
        rw [List.getD_eq_getElem _ _
          (show r - (trimCells (rowCellsList g)).length < dropped.length
            from by omega)]
        exact List.getElem_mem _
      rw [rowCellsList_getD g hr] at h2
      rw [h2]
      exact hdrop _ hmemd
    have hmem : g.get c r ∈ g.rowCells r := by
      unfold TileGrid.rowCells
      exact List.mem_map_of_mem _ (List.mem_range.mpr hc)
    have hnone : (g.get c r).isNone = true :=
      List.all_eq_true.mp hall _ hmem
    exact (Option.isNone_iff_eq_none.mp hnone).symm

theorem SubGrid.eq_of_pointwise {sg sg' : SubGrid} (hw : sg.width = sg'.width)
    (hh : sg.height = sg'.height) (hwf : sg.WF) (hwf' : sg'.WF)
    (hpt : ∀ c r, c < sg.width → r < sg.height → sg.get c r = sg'.get c r) :
    sg = sg' := by
  obtain ⟨w, h, l⟩ := sg
  obtain ⟨w', h', l'⟩ := sg'
  dsimp only at hw hh hpt
  subst hw
  subst hh
  have hwfe : l.length = w * h := hwf
  have hwfe' : l'.length = w * h := hwf'
  congr 1
  refine List.ext_getElem (by rw [hwfe, hwfe']) fun i h1 h2 => ?_
  have hiwh : i < w * h := by rw [← hwfe]; exact h1
  have hwpos : 0 < w := by
    rcases Nat.eq_zero_or_pos w with rfl | hp
    · simp at hiwh
    · exact hp
  have hc : i % w < w := Nat.mod_lt _ hwpos
  have hr : i / w < h := Nat.div_lt_of_lt_mul hiwh
  have hidx : (i / w) * w + i % w = i := by
    rw [Nat.mul_comm]
    exact Nat.div_add_mod i w
  have h3 := hpt (i % w) (i / w) hc hr
  rw [SubGrid.get_eq_getElem hwf hc hr,
    SubGrid.get_eq_getElem hwf' hc hr] at h3
  simp only [List.get_eq_getElem] at h3
  simp only [hidx] at h3
  exact h3

theorem load_header_default (disk : Disk) (r gr b : Nat) (hr : r ≤ 255)
    (hg : gr ≤ 255) (hb : b ≤ 255) (rest : List Byte) :
    TileGrid.load disk ([64, 66, 71, 32] ++ (decBytes r ++ 32 ::
        (decBytes gr ++ 32 :: (decBytes b ++ 10 :: rest)))) =
      loadTail disk r gr b GRID_DEFAULT_NUM_COLS GRID_DEFAULT_NUM_ROWS
        rest := by
  unfold TileGrid.load
  rw [readExactly_consume]
  simp only [Except.instMonad, Except.bind]
  rw [readIntWith_decBytes r 32 (by omega) (by decide)]
  simp only [Except.instMonad, Except.bind]
  rw [readIntWith_decBytes gr 32 (by omega) (by decide)]
  simp only [Except.instMonad, Except.bind]
  rw [readInt_decBytes b 10 (by omega) (by decide)]
  simp only [Except.instMonad, Except.bind]
  rw [if_pos trivial]

theorem load_header_dims (disk : Disk) (r gr b w h : Nat) (hr : r ≤ 255)
    (hg : gr ≤ 255) (hb : b ≤ 255) (hw : w ≤ 255) (hh : h ≤ 255)
    (rest : List Byte) :
    TileGrid.load disk ([64, 66, 71, 32] ++ (decBytes r ++ 32 ::
        (decBytes gr ++ 32 :: (decBytes b ++ 32 ::
          (decBytes w ++ 120 :: (decBytes h ++ 10 :: rest)))))) =
      loadTail disk r gr b w h rest := by
  unfold TileGrid.load
  rw [readExactly_consume]
  simp only [Except.instMonad, Except.bind]
  rw [readIntWith_decBytes r 32 (by omega) (by decide)]
  simp only [Except.instMonad, Except.bind]
  rw [readIntWith_decBytes gr 32 (by omega) (by decide)]
  simp only [Except.instMonad, Except.bind]
  rw [readInt_decBytes b 32 (by omega) (by decide)]
  simp only [Except.instMonad, Except.bind]
  rw [if_pos trivial]
  rw [readIntWith_decBytes w 120 (by omega) (by decide)]
  dsimp only
  rw [readIntWith_decBytes h 10 (by omega) (by decide)]
  dsimp only
  rw [if_neg (by decide)]

/-- Parsing the filename section and the (trimmed) row section of a saved
grid restores the tileset and every cell. -/
theorem loadTail_save (disk : Disk) (g : TileGrid) (red green blue : Nat)
    (hbg : g.background_color = (red, green, blue))
    (hwf : g.subgrid.WF)
    (hr : red ≤ 255) (hg : green ≤ 255) (hb : blue ≤ 255)
    (hnd : g.tileset.filenames.Nodup)
    (h64 : g.tileset.tiles.length ≤ 64)
    (hnn : ∀ f ∈ g.tileset.filenames, (10 : Byte) ∉ f)
    (hcells : ∀ cell ∈ g.subgrid.grid, ∀ t ∈ cell,
      t.index < 64 ∧ ∃ p ∈ g.tileset.tiles, p.1 = t.filename ∧ t.index < p.2)
    (hts : Tileset.load disk g.tileset.filenames = some g.tileset) :
    loadTail disk red green blue g.width g.height
        (nameBytes g.tileset.filenames ++
          (if (trimTrailing ((List.range g.height).map fun row =>
              encodeRowAux g.tileset.filenames (g.rowCells row) 0)).isEmpty
           then []
           else 10 :: (trimTrailing ((List.range g.height).map fun row =>
              encodeRowAux g.tileset.filenames (g.rowCells row) 0)).flatMap
                fun l => l ++ [10])) =
      .ok g := by
  have hfuse : ((List.range g.height).map fun row =>
      encodeRowAux g.tileset.filenames (g.rowCells row) 0) =
      (rowCellsList g).map fun cs =>
        encodeRowAux g.tileset.filenames cs 0 := by
    simp [rowCellsList, List.map_map, Function.comp]
  rw [hfuse, trimTrailing_map_enc]
  have hOK : ∀ cs ∈ trimCells (rowCellsList g), cs.length ≤ g.width ∧
      ∀ cell ∈ cs, ∀ t ∈ cell, t.index < 64 ∧
        ∃ p ∈ g.tileset.tiles, p.1 = t.filename ∧ t.index < p.2 := by
    intro cs hcs
    obtain ⟨rr, hrr, rfl⟩ := rowCellsList_mem (trimCells_mem hcs)
    refine ⟨le_of_eq (rowCells_length g rr), ?_⟩
    intro cell hcell t ht
    obtain ⟨c, hcw, rfl⟩ := mem_rowCells hcell
    exact hcells _ (get_mem_grid hwf hcw hrr) t ht
  by_cases hK : trimCells (rowCellsList g) = []
  · rw [hK]
    simp only [List.map_nil, List.isEmpty_nil]
    rw [if_pos trivial, List.append_nil]
    unfold loadTail
    rw [readFilenames_eof _ hnn]
    simp only [Except.instMonad, Except.bind]
    rw [hts]
    dsimp only
    rw [if_pos trivial]
    have hsub : SubGrid.new g.width g.height = g.subgrid := by
      have h0 : updateRows (SubGrid.new g.width g.height) 0
          (trimCells (rowCellsList g)) = SubGrid.new g.width g.height := by
        rw [hK]
        rfl
      refine SubGrid.eq_of_pointwise rfl rfl (SubGrid.wf_new _ _) hwf
        fun c r hc hr2 => ?_
      rw [← h0]
      exact trimmed_rows_get g hwf c r hc hr2
    rw [Nat.mod_eq_of_lt (show red < 256 by omega),
      Nat.mod_eq_of_lt (show green < 256 by omega),
      Nat.mod_eq_of_lt (show blue < 256 by omega), hsub, ← hbg]
  · rw [if_neg (by simp [List.isEmpty_iff, List.map_eq_nil_iff, hK])]
    rw [List.flatMap_map]
    unfold loadTail
    rw [readFilenames_names _ hnn]
    simp only [Except.instMonad, Except.bind]
    rw [hts]
    dsimp only
    rw [if_neg (by simp)]
    have hlenK : (trimCells (rowCellsList g)).length ≤ g.height :=
      le_trans (trimCells_length _) (le_of_eq (rowCellsList_length g))
    rw [loadRows_encode g.tileset hnd h64 g.width
      (trimCells (rowCellsList g)) g.height 0
      (SubGrid.new g.width g.height) hlenK hOK]
    simp only [Except.instMonad, Except.bind]
    have hsub : updateRows (SubGrid.new g.width g.height) 0
        (trimCells (rowCellsList g)) = g.subgrid := by
      refine SubGrid.eq_of_pointwise ?_ ?_
        (updateRows_wf _ _ (SubGrid.wf_new _ _)) hwf fun c r hc hr2 => ?_
      · rw [updateRows_width]
        rfl
      · rw [updateRows_height]
        rfl
      · rw [updateRows_width] at hc
        rw [updateRows_height] at hr2
        exact trimmed_rows_get g hwf c r hc hr2
    rw [Nat.mod_eq_of_lt (show red < 256 by omega),
      Nat.mod_eq_of_lt (show green < 256 by omega),
      Nat.mod_eq_of_lt (show blue < 256 by omega), hsub, ← hbg]

/-- A valid grid whose tileset matches the asset directory round-trips
exactly through `save` then `load`. -/
theorem save_load_eq (disk : Disk) (g : TileGrid) (hval : g.Valid)
    (hts : Tileset.load disk g.tileset.filenames = some g.tileset) :
    TileGrid.load disk (TileGrid.save g) = .ok g := by
  obtain ⟨hwf, hr255, hg255, hb255, hdims, hnd, h64, hnn, hcells⟩ := hval
  rcases hbg : g.background_color with ⟨red, green, blue⟩
  have hr' : red ≤ 255 := by rw [hbg] at hr255; exact hr255
  have hg' : green ≤ 255 := by rw [hbg] at hg255; exact hg255
  have hb' : blue ≤ 255 := by rw [hbg] at hb255; exact hb255
  by_cases hdef : g.width = GRID_DEFAULT_NUM_COLS ∧
      g.height = GRID_DEFAULT_NUM_ROWS
  · have hsave : TileGrid.save g =
        [64, 66, 71, 32] ++ (decBytes red ++ 32 :: (decBytes green ++ 32 ::
          (decBytes blue ++ 10 :: (nameBytes g.tileset.filenames ++
            (if (trimTrailing ((List.range g.height).map fun row =>
                encodeRowAux g.tileset.filenames (g.rowCells row) 0)).isEmpty
             then []
             else 10 :: (trimTrailing ((List.range g.height).map fun row =>
                encodeRowAux g.tileset.filenames
                  (g.rowCells row) 0)).flatMap fun l => l ++ [10]))))) := by
      simp only [TileGrid.save, hbg]
      rw [if_pos hdef]
      simp [nameBytes, List.append_assoc]
    rw [hsave, load_header_default disk red green blue hr' hg' hb' _,
      ← hdef.1, ← hdef.2]
    exact loadTail_save disk g red green blue hbg hwf hr' hg' hb' hnd h64
      hnn hcells hts
  · have hwh : g.width ≤ 255 ∧ g.height ≤ 255 := by
      rcases hdims with h | h
      · exact absurd h hdef
      · exact h
    have hsave : TileGrid.save g =
        [64, 66, 71, 32] ++ (decBytes red ++ 32 :: (decBytes green ++ 32 ::
          (decBytes blue ++ 32 :: (decBytes g.width ++ 120 ::
            (decBytes g.height ++ 10 :: (nameBytes g.tileset.filenames ++
            (if (trimTrailing ((List.range g.height).map fun row =>
                encodeRowAux g.tileset.filenames (g.rowCells row) 0)).isEmpty
             then []
             else 10 :: (trimTrailing ((List.range g.height).map fun row =>
                encodeRowAux g.tileset.filenames
                  (g.rowCells row) 0)).flatMap fun l => l ++ [10]))))))) := by
      simp only [TileGrid.save, hbg]
      rw [if_neg hdef]
      simp [nameBytes, List.append_assoc]
    rw [hsave, load_header_dims disk red green blue g.width g.height hr'
      hg' hb' hwh.1 hwh.2 _]
    exact loadTail_save disk g red green blue hbg hwf hr' hg' hb' hnd h64
      hnn hcells hts

/-- **C1**: for every representable grid (well-formed buffer, `u8`
background components, default or byte-sized dimensions, at most 64
duplicate-free newline-free tileset filenames, every occupied cell
referencing a declared file with an in-range base64-encodable index) whose
tileset reloads from the asset directory, serializing with
`TileGrid::save` and parsing the bytes back with `TileGrid::load` yields a
grid with the same background color, the same width and height, the same
ordered tileset filename list, and the same optional tile at every
cell. -/
theorem save_load_roundtrip (disk : Disk) (g : TileGrid) (hval : g.Valid)
    (hts : Tileset.load disk g.tileset.filenames = some g.tileset) :
    ∃ g', TileGrid.load disk (TileGrid.save g) = .ok g' ∧
      g'.background_color = g.background_color ∧
      g'.width = g.width ∧ g'.height = g.height ∧
      g'.tileset.filenames = g.tileset.filenames ∧
      ∀ c r, g'.get c r = g.get c r :=
  ⟨g, save_load_eq disk g hval hts, rfl, rfl, rfl, rfl, fun _ _ => rfl⟩

/-- Witness for C1: the concrete 3×2 grid `exGrid3x2` with two occupied
cells round-trips through `save`/`load` over the asset directory
`exDisk`. -/
theorem save_load_roundtrip_witness :
    exGrid3x2.Valid ∧
    Tileset.load exDisk exGrid3x2.tileset.filenames =
      some exGrid3x2.tileset ∧
    ∃ g', TileGrid.load exDisk (TileGrid.save exGrid3x2) = .ok g' ∧
      g'.background_color = exGrid3x2.background_color ∧
      g'.width = exGrid3x2.width ∧ g'.height = exGrid3x2.height ∧
      g'.tileset.filenames = exGrid3x2.tileset.filenames ∧
      ∀ c r, g'.get c r = exGrid3x2.get c r :=
  ⟨by decide, by decide,
    save_load_roundtrip exDisk exGrid3x2 (by decide) (by decide)⟩

end Linoleum
